import Mathlib

/-!
Verification development for the iam-policy-autopilot repository.

Strings from the Rust sources are embedded as `List Char`; Rust `&str`
operations (`trim`, `starts_with`, slicing, `split`) become the
corresponding list operations.  Fallible Rust code becomes `Except`,
and a Rust panic becomes `Option.none`.
-/

namespace IPA

/-! ## Character and list helpers -/

/-- Whitespace as recognized by `str::trim` (restricted to the ASCII
whitespace characters; the sources never exercise Unicode whitespace). -/
def isSpaceChar (c : Char) : Bool :=
  c = ' ' ∨ c = '\t' ∨ c = '\n' ∨ c = '\r'

/-- Embedding of `str::trim`: drop whitespace from both ends. -/
def trimL (l : List Char) : List Char :=
  ((l.dropWhile isSpaceChar).reverse.dropWhile isSpaceChar).reverse

/-- Embedding of Rust `split(sep)` on a single character: `"a:b"` splits to
`["a", "b"]`, the empty string splits to `[""]`. -/
def splitOnChar (sep : Char) : List Char → List (List Char)
  | [] => [[]]
  | c :: rest =>
    if c = sep then [] :: splitOnChar sep rest
    else
      match splitOnChar sep rest with
      | [] => [[c]]
      | p :: ps => (c :: p) :: ps

theorem splitOnChar_ne_nil (sep : Char) (l : List Char) : splitOnChar sep l ≠ [] := by
  cases l with
  | nil => simp [splitOnChar]
  | cons c rest =>
    simp only [splitOnChar]
    split
    · simp
    · split <;> simp

theorem trimL_eq_self (l : List Char) (h : l ≠ [])
    (h1 : ∀ c, l.head? = some c → isSpaceChar c = false)
    (h2 : ∀ c, l.getLast? = some c → isSpaceChar c = false) :
    trimL l = l := by
  have hd : l.dropWhile isSpaceChar = l := by
    cases l with
    | nil => simp
    | cons c rest =>
      have := h1 c rfl
      simp [List.dropWhile, this]
  unfold trimL
  rw [hd]
  have hrev : l.reverse.dropWhile isSpaceChar = l.reverse := by
    cases hr : l.reverse with
    | nil => simp
    | cons c rest =>
      have hc : l.getLast? = some c := by
        rw [← List.head?_reverse, hr]
        rfl
      have := h2 c hc
      simp [List.dropWhile, this]
  rw [hrev, List.reverse_reverse]

/-! ## ParameterValue and classify_value
(src/iam-policy-autopilot-policy-generation/src/extraction/javascript/argument_extractor.rs) -/

/-- Tagged value classification produced by argument extraction. -/
inductive ParameterValue where
  | Resolved (content : List Char)
  | Unresolved (text : List Char)
deriving DecidableEq, Repr

/-- Embedding of `str::parse::<f64>().is_ok()`'s accepted grammar, from the
Rust standard library: `Sign? (inf | infinity | nan | Number)` with the
keywords case-insensitive, `Number ::= Digit+ ('.' Digit*)? Exp? |
Digit* '.' Digit+ Exp?`, `Exp ::= (e|E) Sign? Digit+`. -/
def stripSignL (l : List Char) : List Char :=
  if l.head? = some '+' ∨ l.head? = some '-' then l.tail else l

/-- Case-insensitive match against the float keywords `inf`, `infinity`, `nan`. -/
def isInfNanWord (l : List Char) : Bool :=
  l.map Char.toLower = "inf".data ∨ l.map Char.toLower = "infinity".data ∨
    l.map Char.toLower = "nan".data

/-- ASCII digit. -/
def isDigitC (c : Char) : Bool :=
  48 ≤ c.toNat ∧ c.toNat ≤ 57

/-- Characters other than the exponent markers `e`/`E`. -/
def notExpC (c : Char) : Bool :=
  ¬(c = 'e' ∨ c = 'E')

/-- Mantissa check of the `f64` grammar: `Digit+ ('.' Digit*)? | Digit* '.' Digit+`. -/
def mantissaOkB (mant : List Char) : Bool :=
  let intPart := mant.takeWhile isDigitC
  let r2 := mant.dropWhile isDigitC
  if r2 = [] then intPart ≠ []
  else if r2.head? = some '.' then
    (r2.tail.all isDigitC ∧ (intPart ≠ [] ∨ r2.tail ≠ []))
  else false

/-- Exponent check: nothing, or the marker followed by `Sign? Digit+`. -/
def expOkB (rest : List Char) : Bool :=
  if rest = [] then true
  else (stripSignL rest.tail ≠ [] ∧ (stripSignL rest.tail).all isDigitC)

/-- Decimal part of the Rust `f64` grammar (mantissa plus optional exponent). -/
def isDecNumber (l : List Char) : Bool :=
  mantissaOkB (l.takeWhile notExpC) ∧ expOkB (l.dropWhile notExpC)

/-- Text accepted by Rust's `f64::from_str` (so `trimmed.parse::<f64>().is_ok()`). -/
def isF64Lit (l : List Char) : Bool :=
  let b := stripSignL l
  isInfNanWord b ∨ isDecNumber b

/-- Does the text contain the two-character interpolation opener `$` `\x7b`
(Rust `content.contains("$\x7b")`). -/
def containsInterpB : List Char → Bool
  | '$' :: '{' :: _ => true
  | _ :: rest => containsInterpB rest
  | [] => false

/-- Embedding of `ArgumentExtractor::classify_value`.  `none` models the Rust
panic on a one-character quoted/backquoted input (the byte-slice
`trimmed[1..0]` is out of order there); every claim-relevant input returns
`some`. -/
def classify_value (value_text : List Char) : Option ParameterValue :=
  let t := trimL value_text
  if (t.head? = some '"' ∧ t.getLast? = some '"') ∨
      (t.head? = some '\'' ∧ t.getLast? = some '\'') then
    if 2 ≤ t.length then some (.Resolved (t.drop 1).dropLast) else none
  else if t.head? = some '`' ∧ t.getLast? = some '`' then
    if 2 ≤ t.length then
      let content := (t.drop 1).dropLast
      if containsInterpB content = true then some (.Unresolved t)
      else some (.Resolved content)
    else none
  else if t = "true".data ∨ t = "false".data then some (.Resolved t)
  else if isF64Lit t = true then some (.Resolved t)
  else if t = "null".data ∨ t = "undefined".data then some (.Resolved t)
  else some (.Unresolved t)

example : classify_value "\"my-bucket\"".data = some (.Resolved "my-bucket".data) := by decide
example : classify_value "'my-bucket'".data = some (.Resolved "my-bucket".data) := by decide
example : classify_value "`my-bucket`".data = some (.Resolved "my-bucket".data) := by decide
example : classify_value "`bucket-${name}`".data = some (.Unresolved "`bucket-${name}`".data) := by decide
example : classify_value "3.14".data = some (.Resolved "3.14".data) := by decide
example : classify_value "42".data = some (.Resolved "42".data) := by decide
example : classify_value "null".data = some (.Resolved "null".data) := by decide
example : classify_value "undefined".data = some (.Resolved "undefined".data) := by decide
example : classify_value "bucketName".data = some (.Unresolved "bucketName".data) := by decide
example : classify_value "config.bucket".data = some (.Unresolved "config.bucket".data) := by decide
example : classify_value "getBucket()".data = some (.Unresolved "getBucket()".data) := by decide
example : classify_value "NaN".data = some (.Resolved "NaN".data) := by decide
example : classify_value "0x1F".data = some (.Unresolved "0x1F".data) := by decide

/-! ### Syntactic classes of JavaScript argument-value texts
These formalize the spec's input categories ("string literal", "identifier",
"member access", ...) against which `classify_value` is judged. -/

/-- First character a JavaScript identifier may have (ASCII letter, `_`, `$`). -/
def isIdentStart (c : Char) : Bool :=
  (97 ≤ c.toNat ∧ c.toNat ≤ 122) ∨ (65 ≤ c.toNat ∧ c.toNat ≤ 90) ∨ c = '_' ∨ c = '$'

/-- Any character a JavaScript identifier may contain (ASCII). -/
def isIdentChar (c : Char) : Bool :=
  isIdentStart c ∨ isDigitC c

/-- Identifier-shaped text: nonempty, identifier start, identifier characters
throughout (no keyword exclusion). -/
def isIdentLike (l : List Char) : Bool :=
  l.head?.elim false isIdentStart && l.all isIdentChar

/-- JavaScript identifier: identifier-shaped and not one of the value
keywords `true`, `false`, `null` (which are reserved words; `undefined` and
`NaN` are ordinary global identifiers in JavaScript). -/
def isJsIdentifier (l : List Char) : Bool :=
  isIdentLike l ∧ ¬(l = "true".data ∨ l = "false".data ∨ l = "null".data)

/-- Well-escaped string-literal interior for delimiter `d`: the delimiter and
the backslash occur only as part of a backslash escape pair. -/
def validInnerB (d : Char) : List Char → Bool
  | [] => true
  | ['\\'] => false
  | '\\' :: _ :: rest => validInnerB d rest
  | c :: rest => if c = d ∨ c = '\\' then false else validInnerB d rest

/-- JavaScript number literal (decimal or hex form); used to exhibit a number
literal the extractor does not resolve. -/
def isHexDigitChar (c : Char) : Bool :=
  c.isDigit ∨ ('a' ≤ c ∧ c ≤ 'f') ∨ ('A' ≤ c ∧ c ≤ 'F')

def isJsNumberLiteral (l : List Char) : Bool :=
  isDecNumber l ||
    (match l with
     | '0' :: x :: rest =>
       (x == 'x' || x == 'X') && !rest.isEmpty && rest.all isHexDigitChar
     | _ => false)

example : isJsIdentifier "NaN".data = true := by decide
example : isJsIdentifier "Infinity".data = true := by decide
example : isJsNumberLiteral "0x1F".data = true := by decide
example : validInnerB '"' "x\\\",y".data = true := by decide

/-! ## split_object_properties
(src/iam-policy-autopilot-policy-generation/src/extraction/javascript/argument_extractor.rs,
`ArgumentExtractor::split_object_properties`) -/

/-- Scanner state of the property splitter: whether we are inside a
quote-delimited string (and its delimiter), plus the brace/bracket/paren
nesting levels (signed, as in the Rust `i32` counters). -/
structure ScanState where
  inString : Bool
  stringChar : Char
  brace : Int
  bracket : Int
  paren : Int
deriving DecidableEq, Repr

/-- Initial scanner state. -/
def ScanState.init : ScanState := ⟨false, '\x00', 0, 0, 0⟩

/-- State transition of the splitter on one character, mirroring the Rust
`match` arms that modify state.  Note the string tracker has no escape
handling: inside a string, any occurrence of the opening quote character ends
the string. -/
def scanStep (st : ScanState) (c : Char) : ScanState :=
  if st.inString = false ∧ (c = '"' ∨ c = '\'') then
    { st with inString := true, stringChar := c }
  else if st.inString = true ∧ c = st.stringChar then
    { st with inString := false }
  else if st.inString = false ∧ c = '{' then { st with brace := st.brace + 1 }
  else if st.inString = false ∧ c = '}' then { st with brace := st.brace - 1 }
  else if st.inString = false ∧ c = '[' then { st with bracket := st.bracket + 1 }
  else if st.inString = false ∧ c = ']' then { st with bracket := st.bracket - 1 }
  else if st.inString = false ∧ c = '(' then { st with paren := st.paren + 1 }
  else if st.inString = false ∧ c = ')' then { st with paren := st.paren - 1 }
  else st

/-- A character is a top-level comma in state `st`: the Rust guard
`',' if !in_string && brace_level == 0 && bracket_level == 0 && paren_level == 0`. -/
def isTopComma (st : ScanState) (c : Char) : Bool :=
  c = ',' ∧ st.inString = false ∧ st.brace = 0 ∧ st.bracket = 0 ∧ st.paren = 0

/-- Emit a finished property: trimmed, and dropped when empty. -/
def emitProp (cur : List Char) : List (List Char) :=
  if trimL cur = [] then [] else [trimL cur]

/-- Loop of `split_object_properties`, carrying the scanner state and the
current property accumulator exactly as the Rust `for` loop does. -/
def splitAux (st : ScanState) (cur : List Char) : List Char → List (List Char)
  | [] => emitProp cur
  | c :: rest =>
    if isTopComma st c = true then emitProp cur ++ splitAux st [] rest
    else splitAux (scanStep st c) (cur ++ [c]) rest

/-- Embedding of `ArgumentExtractor::split_object_properties`. -/
def split_object_properties (content : List Char) : List (List Char) :=
  splitAux ScanState.init [] content

/-- Position-based description of the same split: cut the content at every
character that is a top-level comma for the running scanner state (the commas
are dropped), without trimming or filtering. -/
def cutTop (st : ScanState) : List Char → List (List Char)
  | [] => [[]]
  | c :: rest =>
    if isTopComma st c = true then [] :: cutTop st rest
    else
      match cutTop (scanStep st c) rest with
      | [] => [[c]]
      | p :: ps => (c :: p) :: ps

example : split_object_properties "Bucket: \"test\", Key: fileName".data =
    ["Bucket: \"test\"".data, "Key: fileName".data] := by decide
example : split_object_properties "Items: [1, 2, 3], Name: \"test\"".data =
    ["Items: [1, 2, 3]".data, "Name: \"test\"".data] := by decide
example : split_object_properties "A: \"x\\\",y\"".data =
    ["A: \"x\\\"".data, "y\"".data] := by decide

/-! ## Arn (src/iam-policy-autopilot-policy-generation/src/context_fetcher/mod.rs) -/

/-- ARN record: the raw string plus the parsed service and resource-type parts. -/
structure Arn where
  arn : List Char
  service : List Char
  resource_type : List Char
deriving DecidableEq, Repr

/-- Embedding of `Arn::parse_service_part`; `none` models the Rust panic from
`.get(2).unwrap()` when the split has fewer than three fields. -/
def parse_service_part (arn : List Char) : Option (List Char) :=
  if arn = ['*'] then some ['*']
  else (splitOnChar ':' arn)[2]?

/-- Embedding of `Arn::parse_resource_part`; `none` models the Rust panic from
`.get(5).unwrap()` when the split has fewer than six fields. -/
def parse_resource_part (arn : List Char) : Option (List Char) :=
  if arn = ['*'] then some ['*']
  else do
    let f ← (splitOnChar ':' arn)[5]?
    (splitOnChar '/' f)[0]?

/-- Embedding of `Arn::new`; `none` models a panic in either parse helper. -/
def Arn.new (arn : List Char) : Option Arn := do
  let s ← parse_service_part arn
  let r ← parse_resource_part arn
  some ⟨arn, s, r⟩

example : Arn.new "*".data = some ⟨"*".data, "*".data, "*".data⟩ := by decide
example : Arn.new "arn:aws:s3:::my-bucket/my-key".data =
    some ⟨"arn:aws:s3:::my-bucket/my-key".data, "s3".data, "my-bucket".data⟩ := by decide
example : Arn.new "not-an-arn".data = none := by decide
example : Arn.new "arn:aws:s3".data = none := by decide

/-! ## Terraform state
(src/iam-policy-autopilot-policy-generation/src/context_fetcher/terraform_state.rs) -/

/-- Shallow JSON value (the shape `serde_json::Value` takes in this code;
numbers are irrelevant here and carried as `Int`). -/
inductive Json where
  | null
  | bool (b : Bool)
  | num (n : Int)
  | str (s : List Char)
  | arr (xs : List Json)
  | obj (fields : List (List Char × Json))

/-- Association-list lookup on object fields (`serde_json::Map::get`). -/
def assocFind (fields : List (List Char × Json)) (key : List Char) : Option Json :=
  match fields with
  | [] => none
  | (k, v) :: rest => if k = key then some v else assocFind rest key

/-- Embedding of `serde_json::Value::get(key)`: `None` on a non-object. -/
def Json.getKey : Json → List Char → Option Json
  | .obj fields, key => assocFind fields key
  | _, _ => none

/-- Errors of the embedded fragment of `ExtractorError`
(src/iam-policy-autopilot-policy-generation/src/errors/mod.rs); only the
variants the embedded functions construct are carried.  Rust stores the
serialized JSON in `terraform_state`; the model keeps the value itself. -/
inductive ExtractorError where
  | PolicyGeneration (message : List Char)
  | TerraformStateCommandError (command : List Char) (message : List Char)
  | TerraformStateParseError (message : List Char) (terraform_state : Json)
  | JsonParsing (context : List Char)

/-- Terraform state extraction result: map from `service:resource_type` to ARNs. -/
structure TerraformStateContext where
  resource_arns : List (List Char × List Arn)
deriving DecidableEq, Repr

/-- Insert into the `service:resource_type → Vec<Arn>` map: create the entry if
missing, then push (the Rust `contains_key`/`insert`/`get_mut().push` dance). -/
def insertArn (m : List (List Char × List Arn)) (k : List Char) (a : Arn) :
    List (List Char × List Arn) :=
  match m with
  | [] => [(k, [a])]
  | (k', arns) :: rest =>
    if k' = k then (k', arns ++ [a]) :: rest else (k', arns) :: insertArn rest k a

/-- Loop body of `read_from_terraform_reader` over `resources`: fish
`values.arn` out of every resource, skipping shapes that do not match, and
panic (`none`) when `Arn::new` panics on a malformed ARN string. -/
def collectArns : List Json → List (List Char × List Arn) →
    Option (List (List Char × List Arn))
  | [], m => some m
  | r :: rest, m =>
    match r.getKey "values".data with
    | none => collectArns rest m
    | some v =>
      match v with
      | .obj fields =>
        match assocFind fields "arn".data with
        | none => collectArns rest m
        | some av =>
          match av with
          | .str s =>
            match Arn.new s with
            | none => none
            | some a => collectArns rest (insertArn m (a.service ++ ':' :: a.resource_type) a)
          | _ => collectArns rest m
      | _ => collectArns rest m

/-- Embedding of `TerraformStateContext::read_from_terraform_reader`; the outer
`Option` models a panic inside `Arn::new`. -/
def read_from_terraform_reader (j : Json) :
    Option (Except ExtractorError TerraformStateContext) :=
  match j with
  | .obj fields =>
    match assocFind fields "values".data with
    | none => some (.error (.TerraformStateParseError
        "Terraform show object does not have values field".data j))
    | some valuesMap =>
      match valuesMap.getKey "root_module".data with
      | none => some (.error (.TerraformStateParseError
          "Terraform show object does not have values.root_module field".data j))
      | some rootModuleMap =>
        match rootModuleMap.getKey "resources".data with
        | none => some (.error (.TerraformStateParseError
            "Terraform show object does not have values.root_module.resources field".data j))
        | some resources =>
          match resources with
          | .arr resourceArr =>
            match collectArns resourceArr [] with
            | none => none
            | some m => some (.ok ⟨m⟩)
          | _ => some (.error (.TerraformStateParseError
              "Terraform resources object is not an array".data j))
  | _ => some (.error (.TerraformStateParseError
      "Terraform show object is not a map".data j))

/-- Result of running `terraform show -json` as an external process, at the
abstraction `retrieve_terraform_state` consumes it: exit status, the
serde-parse of captured stdout (`none` when stdout is not valid JSON), the
captured stderr, and the formatted command string. -/
structure ProcessOutput where
  status_success : Bool
  stdout_parsed : Option Json
  stderr_text : List Char
  command_text : List Char

/-- Embedding of `TerraformShowReader::retrieve_terraform_state` on a completed
process: a non-zero exit becomes the typed command error, a stdout that fails
to parse becomes the serde `From` conversion (`JsonParsing`), otherwise the
parsed state is returned. -/
def retrieve_terraform_state (out : ProcessOutput) : Except ExtractorError Json :=
  if out.status_success = false then
    .error (.TerraformStateCommandError out.command_text out.stderr_text)
  else
    match out.stdout_parsed with
    | none => .error (.JsonParsing "unknown context".data)
    | some j => .ok j

/-! ## generate_policies empty-input early return
(src/iam-policy-autopilot-policy-generation/src/api/generate_policies.rs) -/

/-- Canonical extracted SDK call record. -/
structure SdkMethodCall where
  name : List Char
  possible_services : List (List Char)
  metadata : Option (List Char)
deriving DecidableEq, Repr

/-! ## Policy generation engine

The `policy_generation` module itself (statement construction, Sid
assignment, ARN template expansion, merging) is not among the sources; only
its integration tests are
(src/iam-policy-autopilot-policy-generation/src/policy_generation/integration_tests.rs).
The definitions below are therefore modelled from the spec (§4.3 and the data
model of §3), with every behavioural choice pinned to what those integration
tests assert. -/

/-- AWS context of the run: partition, region, account. -/
structure AwsContext where
  partition : List Char
  region : List Char
  account : List Char
deriving DecidableEq, Repr

/-- Resource: a resource-type name plus optional ARN templates. -/
structure Resource where
  resource_type : List Char
  arn_templates : Option (List (List Char))
deriving DecidableEq, Repr

/-- IAM action with its resources (conditions and explanation omitted: the
embedded claims never consult them). -/
structure Action where
  name : List Char
  resources : List Resource
deriving DecidableEq, Repr

/-- Enriched SDK method call consumed by policy generation. -/
structure EnrichedSdkMethodCall where
  method_name : List Char
  service : List Char
  actions : List Action
deriving DecidableEq, Repr

/-- Statement effect. -/
inductive Effect where
  | Allow
  | Deny
deriving DecidableEq, Repr

/-- Generated IAM policy statement. -/
structure PolicyStatement where
  sid : Option (List Char)
  effect : Effect
  action : List (List Char)
  resource : List (List Char)
deriving DecidableEq, Repr

/-- Generated IAM policy document. -/
structure PolicyDocument where
  version : List Char
  statements : List PolicyStatement
deriving DecidableEq, Repr

/-- Lower-case a character list (for the case-insensitive placeholder match). -/
def lowerL (l : List Char) : List Char := l.map Char.toLower

/-- Modelled from the spec: placeholder substitution priority for a named
placeholder — `Partition`/`Region`/`Account` (case-insensitive) come
unconditionally from the AWS context; otherwise a literal resolved argument,
then a single-candidate external-context ARN, otherwise the wildcard `*`.
`lits` and `ctxm` are the two lookups, already scoped to the originating call. -/
def substName (ctx : AwsContext) (lits ctxm : List Char → Option (List Char))
    (n : List Char) : List Char :=
  if lowerL n = "partition".data then ctx.partition
  else if lowerL n = "region".data then ctx.region
  else if lowerL n = "account".data then ctx.account
  else
    match lits n with
    | some v => v
    | none =>
      match ctxm n with
      | some a => a
      | none => "*".data

/-- Placeholder resolver of the engine: an empty placeholder name is the hard
validation error (`none`), every other name resolves via `substName`. -/
def engineResolve (ctx : AwsContext) (lits ctxm : List Char → Option (List Char))
    (n : List Char) : Option (List Char) :=
  if n = [] then none else some (substName ctx lits ctxm n)

/-- Scanner mode while expanding a template: plain copying, just after a `$`,
or inside a placeholder accumulating its (reversed) name. -/
inductive ExpMode where
  | copy
  | dollar
  | ph (acc : List Char)

/-- Modelled from the spec: single pass over an ARN template replacing each
`${Name}` token via `resolve`; `none` propagates the empty-placeholder
validation error.  A trailing unterminated placeholder resolves its
accumulated name (catalog templates never exercise this). -/
def expandLoop (resolve : List Char → Option (List Char)) :
    ExpMode → List Char → Option (List Char)
  | .copy, [] => some []
  | .copy, c :: rest =>
    if c = '$' then expandLoop resolve .dollar rest
    else (expandLoop resolve .copy rest).map (c :: ·)
  | .dollar, [] => some ['$']
  | .dollar, c :: rest =>
    if c = '{' then expandLoop resolve (.ph []) rest
    else if c = '$' then (expandLoop resolve .dollar rest).map ('$' :: ·)
    else (expandLoop resolve .copy rest).map (fun r => '$' :: c :: r)
  | .ph acc, [] => resolve acc.reverse
  | .ph acc, c :: rest =>
    if c = '}' then
      match resolve acc.reverse with
      | none => none
      | some rep => (expandLoop resolve .copy rest).map (rep ++ ·)
    else expandLoop resolve (.ph (c :: acc)) rest

/-- Message header of the empty-placeholder `PolicyGeneration` error; the full
message is this header followed by the offending template text (the
integration test checks the message contains "empty placeholder"). -/
def emptyPlaceholderMsg : List Char :=
  "Invalid ARN pattern, empty placeholder in template: ".data

/-- Modelled from the spec: expand one ARN template, failing with a
`PolicyGeneration` error that carries the offending template text when the
template holds an empty placeholder. -/
def expandTemplate (ctx : AwsContext) (lits ctxm : List Char → Option (List Char))
    (tpl : List Char) : Except ExtractorError (List Char) :=
  match expandLoop (engineResolve ctx lits ctxm) .copy tpl with
  | none => .error (.PolicyGeneration (emptyPlaceholderMsg ++ tpl))
  | some r => .ok r

/-- First-seen-order deduplication (determinism: no hash iteration order). -/
def dedupFS (seen : List (List Char)) : List (List Char) → List (List Char)
  | [] => []
  | x :: rest => if x ∈ seen then dedupFS seen rest else x :: dedupFS (x :: seen) rest

/-- Capitalize the first character of a segment. -/
def capSeg : List Char → List Char
  | [] => []
  | c :: r => c.toUpper :: r

/-- PascalCase form of an IAM action name: each `:`-separated segment
capitalized and concatenated (`s3:GetObject` becomes `S3GetObject`). -/
def pascalCaseAction (name : List Char) : List Char :=
  ((splitOnChar ':' name).map capSeg).flatten

/-- Modelled from the spec and pinned to the integration tests: the Sid of the
statement generated for the `idx`-th action of a call is
`Allow<PascalCaseActionName>`, with the decimal index appended when
`idx ≥ 1` (the tests assert `AllowS3GetObject` then
`AllowS3GetObjectVersion1`, a suffix without any Sid collision). -/
def mkSid (idx : Nat) (actionName : List Char) : List Char :=
  "Allow".data ++ pascalCaseAction actionName ++
    (if idx = 0 then [] else Nat.toDigits 10 idx)

/-- Expand all ARN templates of one resource entry (no templates: no strings). -/
def expandResource (ctx : AwsContext) (lits ctxm : List Char → Option (List Char))
    (r : Resource) : Except ExtractorError (List (List Char)) :=
  match r.arn_templates with
  | none => .ok []
  | some tpls => tpls.mapM (expandTemplate ctx lits ctxm)

/-- Modelled from the spec: one statement per action — Effect=Allow, the
action name, the deduplicated expanded resource strings (falling back to the
literal `*` when no templates produced any), and the deterministic Sid. -/
def genStatement (ctx : AwsContext) (lits ctxm : List Char → Option (List Char))
    (idx : Nat) (a : Action) : Except ExtractorError PolicyStatement := do
  let rss ← a.resources.mapM (expandResource ctx lits ctxm)
  let rs := dedupFS [] rss.flatten
  let rs := if rs = [] then ["*".data] else rs
  pure ⟨some (mkSid idx a.name), .Allow, [a.name], rs⟩

/-- Number the elements of a list starting at `i`. -/
def enumFrom (i : Nat) : List α → List (Nat × α)
  | [] => []
  | x :: rest => (i, x) :: enumFrom (i + 1) rest

/-- Modelled from the spec: the policy document generated for one enriched
call — fixed version, one statement per action in action order. -/
def generateDocument (ctx : AwsContext) (lits ctxm : List Char → Option (List Char))
    (call : EnrichedSdkMethodCall) : Except ExtractorError PolicyDocument := do
  let stmts ← (enumFrom 0 call.actions).mapM (fun p => genStatement ctx lits ctxm p.1 p.2)
  pure ⟨"2012-10-17".data, stmts⟩

/-- Modelled from the spec: per-call policy generation — one document per
enriched call, failing as a whole on the first invalid template. -/
def generate_policies_engine (ctx : AwsContext)
    (lits ctxm : List Char → Option (List Char))
    (calls : List EnrichedSdkMethodCall) : Except ExtractorError (List PolicyDocument) :=
  calls.mapM (generateDocument ctx lits ctxm)

/-- Sid assignment as the spec's sentence literally states it: the base Sid
`Allow<PascalCaseActionName>`, with a numeric suffix (1, 2, ...) appended
only when a previously assigned Sid in the same document would collide;
the suffix chosen is the smallest that avoids every earlier Sid. -/
def firstFreeSid (assigned : List (List Char)) (base : List Char) :
    Nat → Nat → List Char
  | _, 0 => base
  | k, fuel + 1 =>
    let cand := base ++ Nat.toDigits 10 k
    if cand ∈ assigned then firstFreeSid assigned base (k + 1) fuel else cand

/-- Collision-only Sid assignment over the per-statement base Sids of one
document, in statement order (the claim's reading of the spec sentence). -/
def assignSidsSpec (bases : List (List Char)) : List (List Char) :=
  go [] bases
where
  go (assigned : List (List Char)) : List (List Char) → List (List Char)
    | [] => []
    | b :: rest =>
      let s := if b ∈ assigned then firstFreeSid assigned b 1 (assigned.length + 1) else b
      s :: go (assigned ++ [s]) rest

/-! ### Merging (modelled from the spec, §4.3) -/

/-- Merger configuration; cross-service merging is off unless set. -/
structure PolicyMergerConfig where
  allow_cross_service_merging : Bool
deriving DecidableEq, Repr

/-- Default merger configuration: cross-service merging unset. -/
def PolicyMergerConfig.default : PolicyMergerConfig := ⟨false⟩

/-- Service of an IAM action string: the part before the `:`. -/
def serviceOfAction (a : List Char) : List Char := a.takeWhile (· ≠ ':')

/-- The single service of a statement's action set, when there is one. -/
def stmtService (s : PolicyStatement) : Option (List Char) :=
  match dedupFS [] (s.action.map serviceOfAction) with
  | [x] => some x
  | _ => none

/-- Modelled from the spec: two statements may merge when their resource sets
agree and, unless cross-service merging is allowed, both sit in one and the
same single service. -/
def canMerge (cfg : PolicyMergerConfig) (t s : PolicyStatement) : Bool :=
  t.resource = s.resource ∧
    (cfg.allow_cross_service_merging ∨
      ((stmtService t).isSome ∧ stmtService t = stmtService s))

/-- Merge a statement into the accumulated list: union the action set into the
first mergeable statement, preserving first-seen order, else append. -/
def mergeInto (cfg : PolicyMergerConfig) (s : PolicyStatement) :
    List PolicyStatement → List PolicyStatement
  | [] => [s]
  | t :: rest =>
    if canMerge cfg t s then
      { t with action := dedupFS [] (t.action ++ s.action) } :: rest
    else t :: mergeInto cfg s rest

/-- Modelled from the spec: merge all statements of the given documents by
statement-key equality into one document. -/
def merge_policies (cfg : PolicyMergerConfig) (docs : List PolicyDocument) :
    List PolicyDocument :=
  [⟨"2012-10-17".data,
    ((docs.map PolicyDocument.statements).flatten).foldl
      (fun acc s => mergeInto cfg s acc) []⟩]

/-! ### JSON output (for the determinism claim) -/

/-- Quote a string for JSON output (escaping is irrelevant to the claims). -/
def quoteJ (s : List Char) : List Char := '"' :: s ++ ['"']

/-- Render a JSON array of pre-rendered members. -/
def jarr (xs : List (List Char)) : List Char :=
  '[' :: (List.intercalate ",".data xs) ++ [']']

/-- Render one policy statement as IAM JSON. -/
def statementJson (s : PolicyStatement) : List Char :=
  '{' ::
    (match s.sid with
     | some sid => "\"Sid\":".data ++ quoteJ sid ++ ",".data
     | none => []) ++
    "\"Effect\":".data ++
    (match s.effect with
     | .Allow => quoteJ "Allow".data
     | .Deny => quoteJ "Deny".data) ++
    ",\"Action\":".data ++ jarr (s.action.map quoteJ) ++
    ",\"Resource\":".data ++ jarr (s.resource.map quoteJ) ++ ['}']

/-- Render one policy document as IAM JSON. -/
def documentJson (d : PolicyDocument) : List Char :=
  '{' :: "\"Version\":".data ++ quoteJ d.version ++
    ",\"Statement\":".data ++ jarr (d.statements.map statementJson) ++ ['}']

/-- Render a whole generation result (documents or the error message). -/
def policiesToJson : Except ExtractorError (List PolicyDocument) → List Char
  | .ok docs => jarr (docs.map documentJson)
  | .error (.PolicyGeneration m) => "error: ".data ++ m
  | .error _ => "error".data

/-! ### generate_policies early return
(src/iam-policy-autopilot-policy-generation/src/api/generate_policies.rs,
lines 61-68) -/

/-- Result shape of the `generate_policies` API call. -/
structure GeneratePoliciesResult where
  policies : List PolicyDocument
  explanations : Option (List Char)

/-- Control flow of `generate_policies` around the empty-extraction check:
when extraction produced no methods the function returns `Ok` with no
policies and no explanations before enrichment or generation run; otherwise
the rest of the pipeline (abstracted as `pipeline`) decides the result. -/
def generate_policies_flow (extracted_methods : List SdkMethodCall)
    (pipeline : List SdkMethodCall → Except ExtractorError GeneratePoliciesResult) :
    Except ExtractorError GeneratePoliciesResult :=
  if extracted_methods.isEmpty then .ok ⟨[], none⟩
  else pipeline extracted_methods

/-! ### Fixtures from the integration tests -/

/-- Lookup that never finds anything (no literal arguments / empty context). -/
def noLookup : List Char → Option (List Char) := fun _ => none

/-- AWS context of `test_complete_policy_generation_flow`. -/
def testCtx : AwsContext := ⟨"aws".data, "us-east-1".data, "123456789012".data⟩

/-- Enriched call of `test_complete_policy_generation_flow`. -/
def testCall : EnrichedSdkMethodCall :=
  ⟨"get_object".data, "s3".data,
    [⟨"s3:GetObject".data,
      [⟨"object".data, some ["arn:${Partition}:s3:::${BucketName}/${ObjectName}".data]⟩]⟩,
     ⟨"s3:GetObjectVersion".data,
      [⟨"object".data, some ["arn:${Partition}:s3:::${BucketName}/${ObjectName}".data]⟩]⟩]⟩

example : generateDocument testCtx noLookup noLookup testCall =
    .ok ⟨"2012-10-17".data,
      [⟨some "AllowS3GetObject".data, .Allow, ["s3:GetObject".data],
        ["arn:aws:s3:::*/*".data]⟩,
       ⟨some "AllowS3GetObjectVersion1".data, .Allow, ["s3:GetObjectVersion".data],
        ["arn:aws:s3:::*/*".data]⟩]⟩ := rfl

example : expandTemplate ⟨"aws-cn".data, "cn-north-1".data, "123456789012".data⟩
    noLookup noLookup
    "arn:${Partition}:s3:${Region}:${Account}:accesspoint/${AccessPointName}".data =
    .ok "arn:aws-cn:s3:cn-north-1:123456789012:accesspoint/*".data := rfl

example : expandTemplate testCtx noLookup noLookup
    "arn:${Partition}:s3:${}:bucket/${ObjectName}".data =
    .error (.PolicyGeneration (emptyPlaceholderMsg ++
      "arn:${Partition}:s3:${}:bucket/${ObjectName}".data)) := rfl

/-! ## Claim theorems -/

/-- C9: for every pipeline invocation whose extraction stage produces zero SDK
method calls, `generate_policies` returns `Ok` with an empty policies list and
no explanations — whatever the rest of the pipeline would have done. -/
theorem c9_empty_extraction_returns_empty_ok
    (pipeline : List SdkMethodCall → Except ExtractorError GeneratePoliciesResult) :
    generate_policies_flow [] pipeline =
      .ok { policies := [], explanations := none } := rfl

/-- C10: `Arn::new` is partial — `*` maps to the all-wildcard record; an input
with at least six `:`-separated fields yields the third field as service and
the first `/`-segment of the sixth field as resource type; every other input
panics (`none`) instead of returning an error. -/
theorem c10_arn_new_behavior (s : List Char) :
    (s = ['*'] → Arn.new s = some ⟨['*'], ['*'], ['*']⟩) ∧
    (∀ p2 p5, (splitOnChar ':' s)[2]? = some p2 → (splitOnChar ':' s)[5]? = some p5 →
      Arn.new s = some ⟨s, p2, (splitOnChar '/' p5).headD []⟩) ∧
    (s ≠ ['*'] → (splitOnChar ':' s).length < 6 → Arn.new s = none) := by
  refine ⟨?_, ?_, ?_⟩
  · intro h
    subst h
    rfl
  · intro p2 p5 h2 h5
    have hne : s ≠ ['*'] := by
      intro h
      subst h
      simp [splitOnChar] at h2
    have hhead : (splitOnChar '/' p5)[0]? = some ((splitOnChar '/' p5).headD []) := by
      cases hsp : splitOnChar '/' p5 with
      | nil => exact absurd hsp (splitOnChar_ne_nil _ _)
      | cons a t => simp
    simp only [Arn.new, parse_service_part, parse_resource_part, if_neg hne, h2, h5,
      Option.bind_eq_bind, Option.some_bind, hhead]
  · intro hne hlen
    have h5 : (splitOnChar ':' s)[5]? = none := by
      rw [List.getElem?_eq_none]
      omega
    simp only [Arn.new, parse_service_part, parse_resource_part, if_neg hne, h5,
      Option.bind_eq_bind]
    cases (splitOnChar ':' s)[2]? <;> simp

/-- C10 witness: concrete instances of all three branches. -/
theorem c10_arn_new_behavior_witness :
    Arn.new "*".data = some ⟨"*".data, "*".data, "*".data⟩ ∧
    Arn.new "arn:aws:s3:::my-bucket/my-key".data =
      some ⟨"arn:aws:s3:::my-bucket/my-key".data, "s3".data, "my-bucket".data⟩ ∧
    Arn.new "arn:aws:s3".data = none := by
  refine ⟨(c10_arn_new_behavior "*".data).1 (by decide), ?_, ?_⟩
  · have h := (c10_arn_new_behavior "arn:aws:s3:::my-bucket/my-key".data).2.1
      "s3".data "my-bucket/my-key".data (by decide) (by decide)
    simpa using h
  · exact (c10_arn_new_behavior "arn:aws:s3".data).2.2 (by decide) (by decide)

/-- C8: a non-zero exit of `terraform show -json` yields the typed
`TerraformStateCommandError`; a state JSON lacking `values`,
`values.root_module` or `values.root_module.resources` yields the typed
`TerraformStateParseError` whose message names the missing field. -/
theorem c8_terraform_state_errors :
    (∀ out : ProcessOutput, out.status_success = false →
      retrieve_terraform_state out =
        .error (.TerraformStateCommandError out.command_text out.stderr_text)) ∧
    (∀ fields, assocFind fields "values".data = none →
      read_from_terraform_reader (.obj fields) =
        some (.error (.TerraformStateParseError
          "Terraform show object does not have values field".data (.obj fields)))) ∧
    (∀ fields v, assocFind fields "values".data = some v →
      v.getKey "root_module".data = none →
      read_from_terraform_reader (.obj fields) =
        some (.error (.TerraformStateParseError
          "Terraform show object does not have values.root_module field".data (.obj fields)))) ∧
    (∀ fields v r, assocFind fields "values".data = some v →
      v.getKey "root_module".data = some r →
      r.getKey "resources".data = none →
      read_from_terraform_reader (.obj fields) =
        some (.error (.TerraformStateParseError
          "Terraform show object does not have values.root_module.resources field".data
          (.obj fields)))) := by
  refine ⟨?_, ?_, ?_, ?_⟩
  · intro out h
    unfold retrieve_terraform_state
    rw [if_pos h]
  · intro fields h
    simp only [read_from_terraform_reader, h]
  · intro fields v hv h
    simp only [read_from_terraform_reader, hv, h]
  · intro fields v r hv hr h
    simp only [read_from_terraform_reader, hv, hr, h]

/-- C8 witness: a failed process run and three concretely malformed state
objects, settled through the theorem. -/
theorem c8_terraform_state_errors_witness :
    retrieve_terraform_state ⟨false, none, "boom".data, "terraform show -json".data⟩ =
      .error (.TerraformStateCommandError "terraform show -json".data "boom".data) ∧
    read_from_terraform_reader (.obj [("other".data, .null)]) =
      some (.error (.TerraformStateParseError
        "Terraform show object does not have values field".data
        (.obj [("other".data, .null)]))) ∧
    read_from_terraform_reader (.obj [("values".data, .obj [])]) =
      some (.error (.TerraformStateParseError
        "Terraform show object does not have values.root_module field".data
        (.obj [("values".data, .obj [])]))) ∧
    read_from_terraform_reader (.obj [("values".data, .obj [("root_module".data, .obj [])])]) =
      some (.error (.TerraformStateParseError
        "Terraform show object does not have values.root_module.resources field".data
        (.obj [("values".data, .obj [("root_module".data, .obj [])])]))) := by
  refine ⟨?_, ?_, ?_, ?_⟩
  · exact c8_terraform_state_errors.1 _ rfl
  · exact c8_terraform_state_errors.2.1 _ (by rfl)
  · exact c8_terraform_state_errors.2.2.1 _ (.obj []) (by rfl) (by rfl)
  · exact c8_terraform_state_errors.2.2.2 _ (.obj [("root_module".data, .obj [])]) (.obj [])
      (by rfl) (by rfl) (by rfl)

/-! ### C7: property splitting at top-level commas -/

/-- Prepend pending text to the first cut piece. -/
def consHead (cur : List Char) : List (List Char) → List (List Char)
  | [] => [cur]
  | p :: ps => (cur ++ p) :: ps

theorem cutTop_ne_nil (st : ScanState) (l : List Char) : cutTop st l ≠ [] := by
  cases l with
  | nil => simp [cutTop]
  | cons c rest =>
    simp only [cutTop]
    split
    · simp
    · split <;> simp

/-- Trim every piece and drop the empty ones (the splitter's emission). -/
def emitAll (ps : List (List Char)) : List (List Char) :=
  (ps.map trimL).filter (fun p => p ≠ [])

theorem splitAux_eq_cutTop (l : List Char) :
    ∀ (st : ScanState) (cur : List Char),
      splitAux st cur l = emitAll (consHead cur (cutTop st l)) := by
  induction l with
  | nil =>
    intro st cur
    simp [splitAux, cutTop, consHead, emitAll, emitProp, List.filter]
    split <;> rename_i h <;> simp [h]
  | cons c rest ih =>
    intro st cur
    by_cases hc : isTopComma st c = true
    · rw [splitAux, if_pos hc, cutTop, if_pos hc, ih]
      have hne := cutTop_ne_nil st rest
      cases hcut : cutTop st rest with
      | nil => exact absurd hcut hne
      | cons p ps =>
        simp only [consHead, List.nil_append, emitAll, List.map_cons, List.filter_cons,
          emitProp]
        split <;> rename_i h <;> simp [h]
    · rw [splitAux, if_neg hc, cutTop, if_neg hc, ih]
      have hne := cutTop_ne_nil (scanStep st c) rest
      cases hcut : cutTop (scanStep st c) rest with
      | nil => exact absurd hcut hne
      | cons p ps =>
        simp only [consHead, List.append_assoc, List.cons_append, List.nil_append,
          List.singleton_append]

/-- C7 (amended): `split_object_properties` cuts its input exactly at the
commas that are top-level for the running scanner — outside any tracked
quote-delimited string region and at zero brace/bracket/paren depth — then
trims each piece and drops the empty ones.  The string tracker has no escape
handling: any occurrence of the opening quote character ends the tracked
string, so an escaped quote inside a string literal ends the region and a
later comma of that literal does split. -/
theorem c7_split_at_top_level_commas (content : List Char) :
    split_object_properties content = emitAll (cutTop ScanState.init content) := by
  rw [split_object_properties, splitAux_eq_cutTop]
  have hne := cutTop_ne_nil ScanState.init content
  cases hcut : cutTop ScanState.init content with
  | nil => exact absurd hcut hne
  | cons p ps => simp [consHead]

/-- C7 counterexample: in `A: "x\",y"` the comma sits inside the well-escaped
string literal `"x\",y"`, yet the splitter produces two properties, not the
single property the claim requires. -/
theorem c7_split_escaped_quote_counterexample :
    validInnerB '"' "x\\\",y".data = true ∧
    ',' ∈ "x\\\",y".data ∧
    split_object_properties "A: \"x\\\",y\"".data ≠ ["A: \"x\\\",y\"".data] ∧
    split_object_properties "A: \"x\\\",y\"".data = ["A: \"x\\\"".data, "y\"".data] := by
  refine ⟨by decide, by decide, by decide, by decide⟩

/-! ### C3 helper lemmas -/

theorem ne_of_mem_not_mem {α} {a : α} {l l' : List α} (h : a ∈ l) (h' : a ∉ l') :
    l ≠ l' := by
  intro he
  subst he
  exact h' h

theorem isSpaceChar_false_of_identChar (c : Char) (h : isIdentChar c = true) :
    isSpaceChar c = false := by
  cases hsp : isSpaceChar c with
  | false => rfl
  | true =>
    exfalso
    have h' : c = ' ' ∨ c = '\t' ∨ c = '\n' ∨ c = '\r' := by simpa [isSpaceChar] using hsp
    rcases h' with h' | h' | h' | h' <;> subst h' <;> revert h <;> decide

theorem isDigitC_false_of_identStart (c : Char) (h : isIdentStart c = true) :
    isDigitC c = false := by
  have h' : (97 ≤ c.toNat ∧ c.toNat ≤ 122) ∨ (65 ≤ c.toNat ∧ c.toNat ≤ 90) ∨
      c = '_' ∨ c = '$' := by simpa [isIdentStart] using h
  cases hd : isDigitC c with
  | false => rfl
  | true =>
    exfalso
    have hd' : 48 ≤ c.toNat ∧ c.toNat ≤ 57 := by simpa [isDigitC] using hd
    rcases h' with ⟨a, b⟩ | ⟨a, b⟩ | h' | h'
    · omega
    · omega
    · subst h'; revert hd; decide
    · subst h'; revert hd; decide

theorem identStart_ne (c x : Char) (h : isIdentStart c = true)
    (hx : isIdentStart x = false) : c ≠ x := by
  intro he
  subst he
  rw [h] at hx
  exact absurd hx (by simp)

theorem stripSignL_cons (c : Char) (r : List Char) (h1 : c ≠ '+') (h2 : c ≠ '-') :
    stripSignL (c :: r) = c :: r := by
  simp [stripSignL, h1, h2]

theorem mantissaOkB_cons_false (c : Char) (m : List Char)
    (hd : isDigitC c = false) (hdot : c ≠ '.') : mantissaOkB (c :: m) = false := by
  unfold mantissaOkB
  rw [List.takeWhile_cons, List.dropWhile_cons]
  simp [hd, hdot]

theorem isDecNumber_cons_false (c : Char) (r : List Char)
    (hd : isDigitC c = false) (hdot : c ≠ '.') : isDecNumber (c :: r) = false := by
  unfold isDecNumber
  by_cases he : notExpC c = true
  · rw [List.takeWhile_cons, if_pos he]
    simp [mantissaOkB_cons_false c _ hd hdot]
  · rw [List.takeWhile_cons, if_neg he]
    have : mantissaOkB ([] : List Char) = false := by decide
    simp [this]

theorem isInfNanWord_false_of_mem (l : List Char) (c : Char) (hc : c ∈ l)
    (hlow : c.toLower = c)
    (h1 : c ∉ "inf".data) (h2 : c ∉ "infinity".data) (h3 : c ∉ "nan".data) :
    isInfNanWord l = false := by
  cases hw : isInfNanWord l with
  | false => rfl
  | true =>
    exfalso
    have hw' : l.map Char.toLower = "inf".data ∨ l.map Char.toLower = "infinity".data ∨
        l.map Char.toLower = "nan".data := by simpa [isInfNanWord] using hw
    have hmem : c.toLower ∈ l.map Char.toLower := List.mem_map_of_mem _ hc
    rw [hlow] at hmem
    rcases hw' with h | h | h <;> rw [h] at hmem
    · exact h1 hmem
    · exact h2 hmem
    · exact h3 hmem

theorem isF64Lit_cons_false (c : Char) (r : List Char)
    (hp : c ≠ '+') (hm : c ≠ '-') (hw : isInfNanWord (c :: r) = false)
    (hd : isDigitC c = false) (hdot : c ≠ '.') : isF64Lit (c :: r) = false := by
  unfold isF64Lit
  rw [stripSignL_cons c r hp hm]
  simp [hw, isDecNumber_cons_false c r hd hdot]

theorem mantissaOkB_dotdot_false (m : List Char) :
    mantissaOkB ('.' :: '.' :: m) = false := by
  unfold mantissaOkB
  have hd : isDigitC '.' = false := by decide
  rw [List.dropWhile_cons]
  simp [hd]

theorem isDecNumber_dots_false (rest : List Char) :
    isDecNumber ('.' :: '.' :: '.' :: rest) = false := by
  unfold isDecNumber
  have hne : notExpC '.' = true := by decide
  rw [List.takeWhile_cons, if_pos hne, List.takeWhile_cons, if_pos hne]
  simp [mantissaOkB_dotdot_false]

/-- The fall-through branch of `classify_value`: a trimmed input matching none
of the literal shapes is returned as `Unresolved` unchanged. -/
theorem classify_value_fallthrough (l : List Char) (ht : trimL l = l)
    (h1 : ¬((l.head? = some '"' ∧ l.getLast? = some '"') ∨
        (l.head? = some '\'' ∧ l.getLast? = some '\'')))
    (h2 : ¬(l.head? = some '`' ∧ l.getLast? = some '`'))
    (h3 : ¬(l = "true".data ∨ l = "false".data))
    (h4 : isF64Lit l = false)
    (h5 : ¬(l = "null".data ∨ l = "undefined".data)) :
    classify_value l = some (.Unresolved l) := by
  simp only [classify_value]
  rw [ht, if_neg h1, if_neg h2, if_neg h3, if_neg (by simp [h4]), if_neg h5]

theorem mem_of_getLast?_eq {α} {l : List α} {x : α} (h : l.getLast? = some x) : x ∈ l := by
  have hx : x ∈ l.getLast? := by simp [Option.mem_def, h]
  obtain ⟨hne, hxe⟩ := List.mem_getLast?_eq_getLast hx
  rw [hxe]
  exact List.getLast_mem hne

theorem getLast?_append_right {α} (l₁ l₂ : List α) (h : l₂ ≠ []) :
    (l₁ ++ l₂).getLast? = l₂.getLast? := by
  rw [← List.head?_reverse, ← List.head?_reverse, List.reverse_append]
  cases hr : l₂.reverse with
  | nil => exact absurd (by simpa using hr) h
  | cons a t => simp

theorem isF64Lit_quote_false (c : Char) (r : List Char)
    (hc : c = '"' ∨ c = '\'' ∨ c = '`') : isF64Lit (c :: r) = false := by
  rcases hc with h | h | h <;> subst h <;>
    exact isF64Lit_cons_false _ r (by decide) (by decide)
      (isInfNanWord_false_of_mem _ _ (List.mem_cons_self _ _)
        (by decide) (by decide) (by decide) (by decide))
      (by decide) (by decide)

/-- C3 counterexample: `NaN` is a JavaScript identifier, yet `classify_value`
returns `Resolved "NaN"` instead of the `Unresolved` the claim requires (Rust
`f64` parsing accepts `NaN`); dually, the number literal `0x1F` comes back
`Unresolved` instead of `Resolved`. -/
theorem c3_classify_value_counterexample :
    isJsIdentifier "NaN".data = true ∧
    classify_value "NaN".data = some (.Resolved "NaN".data) ∧
    classify_value "NaN".data ≠ some (.Unresolved "NaN".data) ∧
    isJsNumberLiteral "0x1F".data = true ∧
    classify_value "0x1F".data = some (.Unresolved "0x1F".data) ∧
    classify_value "0x1F".data ≠ some (.Resolved "0x1F".data) := by
  exact ⟨by decide, by decide, by decide, by decide, by decide, by decide⟩

theorem classify_string_lit (d : Char) (mid : List Char) (hd : d = '"' ∨ d = '\'') :
    classify_value (d :: mid ++ [d]) = some (.Resolved mid) := by
  have hsp : isSpaceChar d = false := by rcases hd with h | h <;> subst h <;> decide
  have hlast : (d :: mid ++ [d]).getLast? = some d := List.getLast?_concat _
  have ht : trimL (d :: mid ++ [d]) = d :: mid ++ [d] := by
    refine trimL_eq_self _ (by simp) ?_ ?_
    · intro c hc
      have hdc : d = c := by simpa using hc
      rw [← hdc]
      exact hsp
    · intro c hc
      rw [hlast, Option.some.injEq] at hc
      rw [← hc]
      exact hsp
  have hcond : ((d :: mid ++ [d]).head? = some '"' ∧ (d :: mid ++ [d]).getLast? = some '"') ∨
      ((d :: mid ++ [d]).head? = some '\'' ∧ (d :: mid ++ [d]).getLast? = some '\'') := by
    rcases hd with h | h <;> subst h
    · exact Or.inl ⟨rfl, hlast⟩
    · exact Or.inr ⟨rfl, hlast⟩
  have hmid : (((d :: mid ++ [d]).drop 1).dropLast) = mid := by
    simp [List.dropLast_concat]
  simp only [classify_value]
  rw [ht, if_pos hcond, if_pos (by simp), hmid]

theorem classify_f64 (l : List Char) (hf : isF64Lit l = true) (ht : trimL l = l) :
    classify_value l = some (.Resolved l) := by
  cases l with
  | nil => exact absurd hf (by decide)
  | cons c r =>
    have hne : ∀ x, (x = '"' ∨ x = '\'' ∨ x = '`') → c ≠ x := by
      intro x hx he
      subst he
      rw [isF64Lit_quote_false c r hx] at hf
      exact absurd hf (by simp)
    have hq1 : c ≠ '"' := hne _ (by simp)
    have hq2 : c ≠ '\'' := hne _ (by simp)
    have hq3 : c ≠ '`' := hne _ (by simp)
    have h1 : ¬(((c :: r).head? = some '"' ∧ (c :: r).getLast? = some '"') ∨
        ((c :: r).head? = some '\'' ∧ (c :: r).getLast? = some '\'')) := by
      simp [hq1, hq2]
    have h2 : ¬((c :: r).head? = some '`' ∧ (c :: r).getLast? = some '`') := by
      simp [hq3]
    have h3 : ¬(c :: r = "true".data ∨ c :: r = "false".data) := by
      rintro (he | he) <;> rw [he] at hf <;> exact absurd hf (by decide)
    simp only [classify_value]
    rw [ht, if_neg h1, if_neg h2, if_neg h3, if_pos hf]

theorem classify_template (mid : List Char) :
    (containsInterpB mid = false →
      classify_value ('`' :: mid ++ ['`']) = some (.Resolved mid)) ∧
    (containsInterpB mid = true →
      classify_value ('`' :: mid ++ ['`']) = some (.Unresolved ('`' :: mid ++ ['`']))) := by
  have hlast : ('`' :: mid ++ ['`']).getLast? = some '`' := List.getLast?_concat _
  have ht : trimL ('`' :: mid ++ ['`']) = '`' :: mid ++ ['`'] := by
    refine trimL_eq_self _ (by simp) ?_ ?_
    · intro c hc
      have hdc : '`' = c := by simpa using hc
      rw [← hdc]
      decide
    · intro c hc
      rw [hlast, Option.some.injEq] at hc
      rw [← hc]
      decide
  have h1 : ¬((('`' :: mid ++ ['`']).head? = some '"' ∧
        ('`' :: mid ++ ['`']).getLast? = some '"') ∨
      (('`' :: mid ++ ['`']).head? = some '\'' ∧
        ('`' :: mid ++ ['`']).getLast? = some '\'')) := by
    simp
  have h2 : ('`' :: mid ++ ['`']).head? = some '`' ∧
      ('`' :: mid ++ ['`']).getLast? = some '`' := ⟨rfl, hlast⟩
  have hmid : ((('`' :: mid ++ ['`']).drop 1).dropLast) = mid := by
    simp [List.dropLast_concat]
  constructor
  · intro hni
    simp only [classify_value]
    rw [ht, if_neg h1, if_pos h2, if_pos (by simp), hmid, if_neg (by simp [hni])]
  · intro hi
    simp only [classify_value]
    rw [ht, if_neg h1, if_pos h2, if_pos (by simp), hmid, if_pos hi]

theorem identLike_head (c : Char) (r : List Char) (h : isIdentLike (c :: r) = true) :
    isIdentStart c = true ∧ ∀ x ∈ c :: r, isIdentChar x = true := by
  have h' := h
  simp only [isIdentLike, List.head?_cons, Option.elim, Bool.and_eq_true,
    List.all_eq_true] at h'
  exact ⟨h'.1, h'.2⟩

theorem trimL_eq_self_of_identLike (l : List Char) (h : isIdentLike l = true) :
    trimL l = l := by
  cases l with
  | nil => rfl
  | cons c r =>
    obtain ⟨hst, hall⟩ := identLike_head c r h
    refine trimL_eq_self _ (by simp) ?_ ?_
    · intro x hx
      have hcx : c = x := by simpa using hx
      rw [← hcx]
      exact isSpaceChar_false_of_identChar _ (hall _ (List.mem_cons_self _ _))
    · intro x hx
      exact isSpaceChar_false_of_identChar _ (hall _ (mem_of_getLast?_eq hx))

theorem classify_identifier (l : List Char) (hl : isJsIdentifier l = true)
    (hu : l ≠ "undefined".data) (hw : isInfNanWord l = false) :
    classify_value l = some (.Unresolved l) := by
  have hl' : isIdentLike l = true ∧ ¬(l = "true".data ∨ l = "false".data ∨ l = "null".data) := by
    simpa [isJsIdentifier, -List.cons_append] using hl
  obtain ⟨hlk, hkw⟩ := hl'
  cases l with
  | nil => exact absurd hlk (by decide)
  | cons c r =>
    obtain ⟨hst, hall⟩ := identLike_head c r hlk
    have ht := trimL_eq_self_of_identLike _ hlk
    have hq1 : c ≠ '"' := identStart_ne c _ hst (by decide)
    have hq2 : c ≠ '\'' := identStart_ne c _ hst (by decide)
    have hq3 : c ≠ '`' := identStart_ne c _ hst (by decide)
    refine classify_value_fallthrough _ ht (by simp [hq1, hq2]) (by simp [hq3]) ?_ ?_ ?_
    · intro hcon
      exact hkw (by tauto)
    · exact isF64Lit_cons_false c r (identStart_ne c _ hst (by decide))
        (identStart_ne c _ hst (by decide)) hw
        (isDigitC_false_of_identStart c hst) (identStart_ne c _ hst (by decide))
    · rintro (he | he)
      · exact hkw (by tauto)
      · exact hu he

theorem classify_member (x y : List Char) (hx : isIdentLike x = true)
    (hy : isIdentLike y = true) :
    classify_value (x ++ '.' :: y) = some (.Unresolved (x ++ '.' :: y)) := by
  cases x with
  | nil => exact absurd hx (by decide)
  | cons c x' =>
    cases y with
    | nil => exact absurd hy (by decide)
    | cons d y' =>
      obtain ⟨hst, hallx⟩ := identLike_head c x' hx
      obtain ⟨-, hally⟩ := identLike_head d y' hy
      have hdot : '.' ∈ (c :: x') ++ '.' :: d :: y' :=
        List.mem_append_right _ (List.mem_cons_self _ _)
      have hlast : ((c :: x') ++ '.' :: d :: y').getLast? = (d :: y').getLast? := by
        rw [getLast?_append_right _ _ (by simp)]
        rw [show ('.' :: d :: y' : List Char) = ['.'] ++ (d :: y') from rfl]
        rw [getLast?_append_right _ _ (by simp)]
      have ht : trimL ((c :: x') ++ '.' :: d :: y') = (c :: x') ++ '.' :: d :: y' := by
        refine trimL_eq_self _ (by simp) ?_ ?_
        · intro a ha
          have hca : c = a := by simpa using ha
          rw [← hca]
          exact isSpaceChar_false_of_identChar _ (hallx _ (List.mem_cons_self _ _))
        · intro a ha
          rw [hlast] at ha
          exact isSpaceChar_false_of_identChar _ (hally _ (mem_of_getLast?_eq ha))
      have hq1 : c ≠ '"' := identStart_ne c _ hst (by decide)
      have hq2 : c ≠ '\'' := identStart_ne c _ hst (by decide)
      have hq3 : c ≠ '`' := identStart_ne c _ hst (by decide)
      have hw : isInfNanWord ((c :: x') ++ '.' :: d :: y') = false :=
        isInfNanWord_false_of_mem _ '.' hdot (by decide) (by decide) (by decide) (by decide)
      refine classify_value_fallthrough _ ht (by simp [hq1, hq2]) (by simp [hq3]) ?_ ?_ ?_
      · rintro (he | he) <;>
          exact absurd he (ne_of_mem_not_mem hdot (by decide))
      · exact isF64Lit_cons_false c _ (identStart_ne c _ hst (by decide))
          (identStart_ne c _ hst (by decide)) hw
          (isDigitC_false_of_identStart c hst) (identStart_ne c _ hst (by decide))
      · rintro (he | he) <;>
          exact absurd he (ne_of_mem_not_mem hdot (by decide))

theorem classify_call (f args : List Char) (hf : isIdentLike f = true) :
    classify_value (f ++ '(' :: args ++ [')']) =
      some (.Unresolved (f ++ '(' :: args ++ [')'])) := by
  cases f with
  | nil => exact absurd hf (by decide)
  | cons c f' =>
    obtain ⟨hst, hallf⟩ := identLike_head c f' hf
    have hpar : '(' ∈ (c :: f') ++ '(' :: args ++ [')'] := by simp
    have hlast : ((c :: f') ++ '(' :: args ++ [')']).getLast? = some ')' := by
      rw [getLast?_append_right _ _ (by simp)]
      rfl
    have ht : trimL ((c :: f') ++ '(' :: args ++ [')']) =
        (c :: f') ++ '(' :: args ++ [')'] := by
      refine trimL_eq_self _ (by simp) ?_ ?_
      · intro a ha
        have hca : c = a := by simpa using ha
        rw [← hca]
        exact isSpaceChar_false_of_identChar _ (hallf _ (List.mem_cons_self _ _))
      · intro a ha
        rw [hlast, Option.some.injEq] at ha
        rw [← ha]
        decide
    have hq1 : c ≠ '"' := identStart_ne c _ hst (by decide)
    have hq2 : c ≠ '\'' := identStart_ne c _ hst (by decide)
    have hq3 : c ≠ '`' := identStart_ne c _ hst (by decide)
    have hw : isInfNanWord ((c :: f') ++ '(' :: args ++ [')']) = false :=
      isInfNanWord_false_of_mem _ '(' hpar (by decide) (by decide) (by decide) (by decide)
    refine classify_value_fallthrough _ ht (by simp [hq1, hq2]) (by simp [hq3]) ?_ ?_ ?_
    · rintro (he | he) <;>
        exact absurd he (ne_of_mem_not_mem hpar (by decide))
    · exact isF64Lit_cons_false c _ (identStart_ne c _ hst (by decide))
        (identStart_ne c _ hst (by decide)) hw
        (isDigitC_false_of_identStart c hst) (identStart_ne c _ hst (by decide))
    · rintro (he | he) <;>
        exact absurd he (ne_of_mem_not_mem hpar (by decide))

theorem classify_spread (rest : List Char)
    (ht : trimL ('.' :: '.' :: '.' :: rest) = '.' :: '.' :: '.' :: rest) :
    classify_value ('.' :: '.' :: '.' :: rest) =
      some (.Unresolved ('.' :: '.' :: '.' :: rest)) := by
  have h4 : isF64Lit ('.' :: '.' :: '.' :: rest) = false := by
    unfold isF64Lit
    rw [stripSignL_cons _ _ (by decide) (by decide)]
    simp [isInfNanWord_false_of_mem _ '.' (List.mem_cons_self _ _)
        (by decide) (by decide) (by decide) (by decide),
      isDecNumber_dots_false]
  refine classify_value_fallthrough _ ht (by simp) (by simp) ?_ h4 ?_
  · rintro (he | he) <;> simp at he
  · rintro (he | he) <;> simp at he

/-- C3 (amended): `classify_value` returns `Resolved` with the literal content
for string literals, texts accepted by Rust's `f64` grammar (its notion of a
number literal), the keywords `true`/`false`/`null`/`undefined`, and
non-interpolated template strings; it returns `Unresolved` with the original
text for interpolated templates, for identifiers other than `undefined` and
the case-insensitive float words (`inf`/`infinity`/`nan`, which come back
`Resolved`), and for member accesses, calls and spreads. -/
theorem c3_classify_value_amended :
    (∀ d mid, (d = '"' ∨ d = '\'') → validInnerB d mid = true →
      classify_value (d :: mid ++ [d]) = some (.Resolved mid)) ∧
    (∀ l, isF64Lit l = true → trimL l = l →
      classify_value l = some (.Resolved l)) ∧
    (classify_value "true".data = some (.Resolved "true".data) ∧
      classify_value "false".data = some (.Resolved "false".data) ∧
      classify_value "null".data = some (.Resolved "null".data) ∧
      classify_value "undefined".data = some (.Resolved "undefined".data)) ∧
    (∀ mid, containsInterpB mid = false →
      classify_value ('`' :: mid ++ ['`']) = some (.Resolved mid)) ∧
    (∀ mid, containsInterpB mid = true →
      classify_value ('`' :: mid ++ ['`']) = some (.Unresolved ('`' :: mid ++ ['`']))) ∧
    (∀ l, isJsIdentifier l = true → l ≠ "undefined".data → isInfNanWord l = false →
      classify_value l = some (.Unresolved l)) ∧
    (∀ x y, isIdentLike x = true → isIdentLike y = true →
      classify_value (x ++ '.' :: y) = some (.Unresolved (x ++ '.' :: y))) ∧
    (∀ f args, isIdentLike f = true →
      classify_value (f ++ '(' :: args ++ [')']) =
        some (.Unresolved (f ++ '(' :: args ++ [')']))) ∧
    (∀ rest, trimL ('.' :: '.' :: '.' :: rest) = '.' :: '.' :: '.' :: rest →
      classify_value ('.' :: '.' :: '.' :: rest) =
        some (.Unresolved ('.' :: '.' :: '.' :: rest))) := by
  refine ⟨fun d mid hd _ => classify_string_lit d mid hd,
    classify_f64, ⟨by decide, by decide, by decide, by decide⟩,
    fun mid h => (classify_template mid).1 h,
    fun mid h => (classify_template mid).2 h,
    classify_identifier, classify_member, classify_call, classify_spread⟩

/-- C3 witness: one concrete input per class, settled through the theorem. -/
theorem c3_classify_value_amended_witness :
    classify_value "'abc'".data = some (.Resolved "abc".data) ∧
    classify_value "3.5".data = some (.Resolved "3.5".data) ∧
    classify_value "`a-${b}`".data = some (.Unresolved "`a-${b}`".data) ∧
    classify_value "bucketName".data = some (.Unresolved "bucketName".data) ∧
    classify_value "config.bucket".data = some (.Unresolved "config.bucket".data) ∧
    classify_value "getBucket()".data = some (.Unresolved "getBucket()".data) ∧
    classify_value "...config".data = some (.Unresolved "...config".data) := by
  refine ⟨?_, ?_, ?_, ?_, ?_, ?_, ?_⟩
  · exact c3_classify_value_amended.1 '\'' "abc".data (by simp) (by decide)
  · exact c3_classify_value_amended.2.1 "3.5".data (by decide) (by decide)
  · exact c3_classify_value_amended.2.2.2.2.1 "a-${b}".data (by decide)
  · exact c3_classify_value_amended.2.2.2.2.2.1 "bucketName".data (by decide)
      (by decide) (by decide)
  · exact c3_classify_value_amended.2.2.2.2.2.2.1 "config".data "bucket".data
      (by decide) (by decide)
  · exact c3_classify_value_amended.2.2.2.2.2.2.2.1 "getBucket".data [] (by decide)
  · exact c3_classify_value_amended.2.2.2.2.2.2.2.2 "config".data (by decide)

/-! ### C2/C5: ARN template expansion over structured templates -/

/-- Segment of an ARN template: literal text or one `${...}` placeholder. -/
inductive Seg where
  | lit (text : List Char)
  | ph (name : List Char)
deriving DecidableEq, Repr

/-- Render a segment list back to template text. -/
def renderSegs : List Seg → List Char
  | [] => []
  | .lit t :: rest => t ++ renderSegs rest
  | .ph n :: rest => '$' :: '{' :: (n ++ '}' :: renderSegs rest)

/-- Well-formedness of one segment: literal text free of `$`, placeholder
names free of the closing brace. -/
def segWFB : Seg → Bool
  | .lit t => ¬('$' ∈ t)
  | .ph n => ¬('}' ∈ n)

/-- Well-formed segment list. -/
def segsWFB (segs : List Seg) : Bool := segs.all segWFB

/-- Per-segment replacement under a placeholder resolver. -/
def replaceSeg (resolve : List Char → Option (List Char)) : Seg → Option (List Char)
  | .lit t => some t
  | .ph n => resolve n

theorem mapM_eq_map_option {α β} (f : α → Option β) (g : α → β) (l : List α)
    (h : ∀ x ∈ l, f x = some (g x)) : l.mapM f = some (l.map g) := by
  induction l with
  | nil => rfl
  | cons a t ih =>
    rw [List.mapM_cons, h a (List.mem_cons_self _ _),
      ih (fun x hx => h x (List.mem_cons_of_mem _ hx))]
    rfl

theorem mapM_none_of_mem {α β} (f : α → Option β) (l : List α) (x : α)
    (hx : x ∈ l) (hfx : f x = none) : l.mapM f = none := by
  induction l with
  | nil => simp at hx
  | cons a t ih =>
    rw [List.mapM_cons]
    cases hfa : f a with
    | none => rfl
    | some b =>
      have hxt : x ∈ t := by
        rcases List.mem_cons.mp hx with h | h
        · subst h
          rw [hfa] at hfx
          cases hfx
        · exact h
      rw [ih hxt]
      rfl

theorem expandLoop_copy_lit (resolve : List Char → Option (List Char))
    (t : List Char) (h : '$' ∉ t) (rest : List Char) :
    expandLoop resolve .copy (t ++ rest) =
      (expandLoop resolve .copy rest).map (t ++ ·) := by
  induction t with
  | nil =>
    simp only [List.nil_append]
    cases expandLoop resolve .copy rest <;> rfl
  | cons c t' ih =>
    have hc : c ≠ '$' := fun he => h (he ▸ List.mem_cons_self _ _)
    have ht' : '$' ∉ t' := fun he => h (List.mem_cons_of_mem _ he)
    rw [List.cons_append, expandLoop, if_neg hc, ih ht']
    cases expandLoop resolve .copy rest <;> rfl

theorem expandLoop_ph (resolve : List Char → Option (List Char)) (n : List Char)
    (h : '}' ∉ n) : ∀ (acc rest : List Char),
    expandLoop resolve (.ph acc) (n ++ '}' :: rest) =
      match resolve (acc.reverse ++ n) with
      | none => none
      | some rep => (expandLoop resolve .copy rest).map (rep ++ ·) := by
  induction n with
  | nil =>
    intro acc rest
    rw [List.nil_append, expandLoop, if_pos rfl, List.append_nil]
  | cons c n' ih =>
    intro acc rest
    have hc : c ≠ '}' := fun he => h (he ▸ List.mem_cons_self _ _)
    have hn' : '}' ∉ n' := fun he => h (List.mem_cons_of_mem _ he)
    rw [List.cons_append, expandLoop, if_neg hc, ih hn' (c :: acc) rest]
    have : (c :: acc).reverse ++ n' = acc.reverse ++ c :: n' := by
      simp
    rw [this]

theorem expandLoop_render (resolve : List Char → Option (List Char)) :
    ∀ (segs : List Seg), segsWFB segs = true →
    expandLoop resolve .copy (renderSegs segs) =
      (segs.mapM (replaceSeg resolve)).map List.flatten := by
  intro segs
  induction segs with
  | nil => intro _; rfl
  | cons s rest ih =>
    intro hwf
    have hs : segWFB s = true := by
      have := hwf
      simp only [segsWFB, List.all_cons, Bool.and_eq_true] at this
      exact this.1
    have hrest : segsWFB rest = true := by
      have := hwf
      simp only [segsWFB, List.all_cons, Bool.and_eq_true] at this
      exact this.2
    cases s with
    | lit t =>
      have ht : '$' ∉ t := by simpa [segWFB] using hs
      rw [renderSegs, expandLoop_copy_lit resolve t ht, ih hrest, List.mapM_cons]
      cases hm : rest.mapM (replaceSeg resolve) <;> rfl
    | ph n =>
      have hn : '}' ∉ n := by simpa [segWFB] using hs
      rw [renderSegs, expandLoop, if_pos rfl, expandLoop, if_pos rfl,
        expandLoop_ph resolve n hn [] (renderSegs rest), List.mapM_cons]
      simp only [List.reverse_nil, List.nil_append, replaceSeg]
      cases hr : resolve n with
      | none => rfl
      | some rep =>
        rw [ih hrest]
        cases hm : rest.mapM (replaceSeg resolve) <;> rfl

/-- Spec-side replacement for one segment: the three context placeholders
(case-insensitive) take the run's AWS-context values; every other placeholder
becomes the wildcard. -/
def specReplace (ctx : AwsContext) : Seg → List Char
  | .lit t => t
  | .ph n =>
    if lowerL n = "partition".data then ctx.partition
    else if lowerL n = "region".data then ctx.region
    else if lowerL n = "account".data then ctx.account
    else "*".data

/-- C2: expanding a well-formed ARN template whose placeholders are all
nonempty, with no literal argument and no single-candidate context match
available, replaces `${Partition}`/`${Region}`/`${Account}` by the AWS-context
values and every other placeholder by `*`. -/
theorem c2_arn_placeholder_substitution (ctx : AwsContext)
    (lits ctxm : List Char → Option (List Char)) (segs : List Seg)
    (hwf : segsWFB segs = true)
    (hne : ∀ n, Seg.ph n ∈ segs → n ≠ [])
    (hnone : ∀ n, Seg.ph n ∈ segs → lits n = none ∧ ctxm n = none) :
    expandTemplate ctx lits ctxm (renderSegs segs) =
      .ok (List.flatten (segs.map (specReplace ctx))) := by
  have hmap : segs.mapM (replaceSeg (engineResolve ctx lits ctxm)) =
      some (segs.map (specReplace ctx)) := by
    apply mapM_eq_map_option
    intro s hs
    cases s with
    | lit t => rfl
    | ph n =>
      have h1 := hne n hs
      obtain ⟨h2, h3⟩ := hnone n hs
      simp only [replaceSeg, engineResolve, if_neg h1, substName, h2, h3, specReplace]
  unfold expandTemplate
  rw [expandLoop_render _ segs hwf, hmap]
  rfl

/-- Segments of the integration-test scenario template
`arn:${Partition}:s3:::${BucketName}/${ObjectName}`. -/
def scenarioSegs : List Seg :=
  [.lit "arn:".data, .ph "Partition".data, .lit ":s3:::".data,
   .ph "BucketName".data, .lit "/".data, .ph "ObjectName".data]

/-- C2 witness: the scenario template under context
`(aws, us-east-1, 123456789012)` with no literal values resolves to
`arn:aws:s3:::*/*`. -/
theorem c2_arn_placeholder_substitution_witness :
    expandTemplate testCtx noLookup noLookup
      "arn:${Partition}:s3:::${BucketName}/${ObjectName}".data =
      .ok "arn:aws:s3:::*/*".data := by
  have h := c2_arn_placeholder_substitution testCtx noLookup noLookup scenarioSegs
    (by decide)
    (by
      intro n hn
      simp [scenarioSegs] at hn
      rcases hn with h | h | h <;> subst h <;> decide)
    (fun n _ => ⟨rfl, rfl⟩)
  exact h

/-! ### C5: empty placeholders fail the whole generation -/

theorem mapM_error_src {α β ε} (f : α → Except ε β) (l : List α) (e : ε)
    (h : l.mapM f = .error e) : ∃ x ∈ l, f x = .error e := by
  induction l with
  | nil => cases h
  | cons a t ih =>
    rw [List.mapM_cons] at h
    cases hfa : f a with
    | error e' =>
      rw [hfa] at h
      have he : e' = e := by
        have : (Except.error e' : Except ε (List β)) = .error e := h
        cases this
        rfl
      exact ⟨a, List.mem_cons_self _ _, he ▸ hfa⟩
    | ok b =>
      rw [hfa] at h
      cases hmt : t.mapM f with
      | error e' =>
        rw [hmt] at h
        have he : e' = e := by
          have : (Except.error e' : Except ε (List β)) = .error e := h
          cases this
          rfl
        obtain ⟨x, hx, hfx⟩ := ih (he ▸ hmt)
        exact ⟨x, List.mem_cons_of_mem _ hx, hfx⟩
      | ok bs =>
        rw [hmt] at h
        cases h

theorem mapM_error_of_mem {α β ε} (f : α → Except ε β) (l : List α) (x : α)
    (hx : x ∈ l) (e : ε) (hfx : f x = .error e) : ∃ e', l.mapM f = .error e' := by
  induction l with
  | nil => simp at hx
  | cons a t ih =>
    rw [List.mapM_cons]
    cases hfa : f a with
    | error e' => exact ⟨e', rfl⟩
    | ok b =>
      have hxt : x ∈ t := by
        rcases List.mem_cons.mp hx with h | h
        · subst h
          rw [hfa] at hfx
          cases hfx
        · exact h
      obtain ⟨e', he'⟩ := ih hxt
      rw [he']
      exact ⟨e', rfl⟩

/-- Templates attached to one resource entry. -/
def templatesOfResource (r : Resource) : List (List Char) := r.arn_templates.getD []

/-- Templates attached to one action. -/
def templatesOfAction (a : Action) : List (List Char) :=
  (a.resources.map templatesOfResource).flatten

/-- Templates attached to one enriched call. -/
def templatesOfCall (c : EnrichedSdkMethodCall) : List (List Char) :=
  (c.actions.map templatesOfAction).flatten

/-- All templates occurring in a list of enriched calls. -/
def templatesOfCalls (cs : List EnrichedSdkMethodCall) : List (List Char) :=
  (cs.map templatesOfCall).flatten

theorem mem_of_mem_enumFrom {α} {p : Nat × α} :
    ∀ {i : Nat} {l : List α}, p ∈ enumFrom i l → p.2 ∈ l := by
  intro i l
  induction l generalizing i with
  | nil => intro h; simp [enumFrom] at h
  | cons a t ih =>
    intro h
    rcases List.mem_cons.mp h with h | h
    · subst h
      exact List.mem_cons_self _ _
    · exact List.mem_cons_of_mem _ (ih h)

theorem mem_enumFrom_of_mem {α} {a : α} :
    ∀ {l : List α} {i : Nat}, a ∈ l → ∃ k, (k, a) ∈ enumFrom i l := by
  intro l
  induction l with
  | nil => intro i h; simp at h
  | cons b t ih =>
    intro i h
    rcases List.mem_cons.mp h with h | h
    · subst h
      exact ⟨i, List.mem_cons_self _ _⟩
    · obtain ⟨k, hk⟩ := ih (i := i + 1) h
      exact ⟨k, List.mem_cons_of_mem _ hk⟩

theorem expandTemplate_error_shape (ctx : AwsContext)
    (lits ctxm : List Char → Option (List Char)) (tpl : List Char) (e : ExtractorError)
    (h : expandTemplate ctx lits ctxm tpl = .error e) :
    e = .PolicyGeneration (emptyPlaceholderMsg ++ tpl) ∧
      expandLoop (engineResolve ctx lits ctxm) .copy tpl = none := by
  unfold expandTemplate at h
  cases hl : expandLoop (engineResolve ctx lits ctxm) .copy tpl with
  | none =>
    rw [hl] at h
    cases h
    exact ⟨rfl, rfl⟩
  | some r =>
    rw [hl] at h
    cases h

theorem expandResource_error_src (ctx : AwsContext)
    (lits ctxm : List Char → Option (List Char)) (r : Resource) (e : ExtractorError)
    (h : expandResource ctx lits ctxm r = .error e) :
    ∃ tpl ∈ templatesOfResource r, expandTemplate ctx lits ctxm tpl = .error e := by
  unfold expandResource at h
  cases hts : r.arn_templates with
  | none =>
    rw [hts] at h
    cases h
  | some tpls =>
    rw [hts] at h
    obtain ⟨tpl, htm, he⟩ := mapM_error_src _ _ _ h
    exact ⟨tpl, by simp [templatesOfResource, hts, htm], he⟩

theorem genStatement_error_src (ctx : AwsContext)
    (lits ctxm : List Char → Option (List Char)) (idx : Nat) (a : Action)
    (e : ExtractorError) (h : genStatement ctx lits ctxm idx a = .error e) :
    ∃ r ∈ a.resources, expandResource ctx lits ctxm r = .error e := by
  unfold genStatement at h
  cases hm : a.resources.mapM (expandResource ctx lits ctxm) with
  | error e' =>
    rw [hm] at h
    have he : e' = e := by
      have : (Except.error e' : Except ExtractorError PolicyStatement) = .error e := h
      cases this
      rfl
    exact mapM_error_src _ _ _ (he ▸ hm)
  | ok rss =>
    rw [hm] at h
    cases h

theorem generateDocument_error_src (ctx : AwsContext)
    (lits ctxm : List Char → Option (List Char)) (call : EnrichedSdkMethodCall)
    (e : ExtractorError) (h : generateDocument ctx lits ctxm call = .error e) :
    ∃ p ∈ enumFrom 0 call.actions, genStatement ctx lits ctxm p.1 p.2 = .error e := by
  unfold generateDocument at h
  cases hm : (enumFrom 0 call.actions).mapM
      (fun p => genStatement ctx lits ctxm p.1 p.2) with
  | error e' =>
    rw [hm] at h
    have he : e' = e := by
      have : (Except.error e' : Except ExtractorError PolicyDocument) = .error e := h
      cases this
      rfl
    exact mapM_error_src _ _ _ (he ▸ hm)
  | ok ss =>
    rw [hm] at h
    cases h

theorem engine_error_src (ctx : AwsContext)
    (lits ctxm : List Char → Option (List Char)) (calls : List EnrichedSdkMethodCall)
    (e : ExtractorError) (h : generate_policies_engine ctx lits ctxm calls = .error e) :
    ∃ tpl ∈ templatesOfCalls calls,
      e = .PolicyGeneration (emptyPlaceholderMsg ++ tpl) ∧
      expandLoop (engineResolve ctx lits ctxm) .copy tpl = none := by
  obtain ⟨call, hcall, hde⟩ := mapM_error_src _ _ _ h
  obtain ⟨p, hp, hse⟩ := generateDocument_error_src _ _ _ _ _ hde
  obtain ⟨r, hr, hre⟩ := genStatement_error_src _ _ _ _ _ _ hse
  obtain ⟨tpl, htpl, hte⟩ := expandResource_error_src _ _ _ _ _ hre
  obtain ⟨hshape, hloop⟩ := expandTemplate_error_shape _ _ _ _ _ hte
  refine ⟨tpl, ?_, hshape, hloop⟩
  have hact : p.2 ∈ call.actions := mem_of_mem_enumFrom hp
  simp only [templatesOfCalls, templatesOfCall, templatesOfAction, List.mem_flatten,
    List.mem_map]
  exact ⟨templatesOfCall call, ⟨call, hcall, rfl⟩,
    by
      simp only [templatesOfCall, List.mem_flatten, List.mem_map]
      exact ⟨templatesOfAction p.2, ⟨p.2, hact, rfl⟩,
        by
          simp only [templatesOfAction, List.mem_flatten, List.mem_map]
          exact ⟨templatesOfResource r, ⟨r, hr, rfl⟩, htpl⟩⟩⟩

theorem engine_error_exists (ctx : AwsContext)
    (lits ctxm : List Char → Option (List Char)) (calls : List EnrichedSdkMethodCall)
    (tpl : List Char) (hmem : tpl ∈ templatesOfCalls calls)
    (hloop : expandLoop (engineResolve ctx lits ctxm) .copy tpl = none) :
    ∃ e, generate_policies_engine ctx lits ctxm calls = .error e := by
  simp only [templatesOfCalls, List.mem_flatten, List.mem_map] at hmem
  obtain ⟨_, ⟨call, hcall, rfl⟩, htpl⟩ := hmem
  simp only [templatesOfCall, List.mem_flatten, List.mem_map] at htpl
  obtain ⟨_, ⟨a, ha, rfl⟩, htpl⟩ := htpl
  simp only [templatesOfAction, List.mem_flatten, List.mem_map] at htpl
  obtain ⟨_, ⟨r, hr, rfl⟩, htpl⟩ := htpl
  have hte : expandTemplate ctx lits ctxm tpl =
      .error (.PolicyGeneration (emptyPlaceholderMsg ++ tpl)) := by
    unfold expandTemplate
    rw [hloop]
  have hre : ∃ e, expandResource ctx lits ctxm r = .error e := by
    unfold expandResource
    unfold templatesOfResource at htpl
    cases hts : r.arn_templates with
    | none =>
      rw [hts] at htpl
      simp at htpl
    | some tpls =>
      rw [hts] at htpl
      simp only [Option.getD_some] at htpl
      exact mapM_error_of_mem _ _ _ htpl _ hte
  obtain ⟨e1, he1⟩ := hre
  obtain ⟨e2, he2⟩ :=
    mapM_error_of_mem (expandResource ctx lits ctxm) a.resources r hr e1 he1
  have hse : ∀ k, genStatement ctx lits ctxm k a = .error e2 := by
    intro k
    unfold genStatement
    rw [he2]
    rfl
  obtain ⟨k, hk⟩ := mem_enumFrom_of_mem (i := 0) ha
  obtain ⟨e3, he3⟩ := mapM_error_of_mem (fun p => genStatement ctx lits ctxm p.1 p.2)
    (enumFrom 0 call.actions) (k, a) hk e2 (hse k)
  have hde : generateDocument ctx lits ctxm call = .error e3 := by
    unfold generateDocument
    rw [he3]
    rfl
  exact mapM_error_of_mem _ calls call hcall e3 hde

/-- C5: when any enriched call carries an ARN template containing an empty
placeholder `${}`, policy generation fails as a whole with a
`PolicyGeneration` error whose message is the empty-placeholder header
followed by the offending template text, and no policy document is
produced. -/
theorem c5_empty_placeholder_fails_generation (ctx : AwsContext)
    (lits ctxm : List Char → Option (List Char)) (calls : List EnrichedSdkMethodCall)
    (segs : List Seg) (hwf : segsWFB segs = true) (hph : Seg.ph [] ∈ segs)
    (hmem : renderSegs segs ∈ templatesOfCalls calls) :
    (∃ t, t ∈ templatesOfCalls calls ∧
      generate_policies_engine ctx lits ctxm calls =
        .error (.PolicyGeneration (emptyPlaceholderMsg ++ t)) ∧
      expandLoop (engineResolve ctx lits ctxm) .copy t = none) ∧
    ∀ docs, generate_policies_engine ctx lits ctxm calls ≠ .ok docs := by
  have hloop : expandLoop (engineResolve ctx lits ctxm) .copy (renderSegs segs) = none := by
    rw [expandLoop_render _ segs hwf,
      mapM_none_of_mem _ segs (Seg.ph []) hph rfl]
    rfl
  obtain ⟨e, he⟩ := engine_error_exists ctx lits ctxm calls _ hmem hloop
  obtain ⟨t, htm, hshape, hl⟩ := engine_error_src ctx lits ctxm calls e he
  subst hshape
  refine ⟨⟨t, htm, he, hl⟩, ?_⟩
  intro docs hcontra
  rw [he] at hcontra
  cases hcontra

/-- Segments of the integration test's invalid template
`arn:${Partition}:s3:${}:bucket/${ObjectName}`. -/
def invalidSegs : List Seg :=
  [.lit "arn:".data, .ph "Partition".data, .lit ":s3:".data, .ph [],
   .lit ":bucket/".data, .ph "ObjectName".data]

/-- Enriched call of `test_invalid_arn_pattern_handling`. -/
def testInvalidCall : EnrichedSdkMethodCall :=
  ⟨"get_object".data, "s3".data,
    [⟨"s3:GetObject".data,
      [⟨"object".data,
        some ["arn:${Partition}:s3:${}:bucket/${ObjectName}".data]⟩]⟩]⟩

/-- C5 witness: the integration test's enriched call with the empty-placeholder
template, settled through the theorem. -/
theorem c5_empty_placeholder_fails_generation_witness :
    (∃ t, t ∈ templatesOfCalls [testInvalidCall] ∧
      generate_policies_engine testCtx noLookup noLookup [testInvalidCall] =
        .error (.PolicyGeneration (emptyPlaceholderMsg ++ t)) ∧
      expandLoop (engineResolve testCtx noLookup noLookup) .copy t = none) ∧
    ∀ docs, generate_policies_engine testCtx noLookup noLookup [testInvalidCall] ≠
      .ok docs :=
  c5_empty_placeholder_fails_generation testCtx noLookup noLookup [testInvalidCall]
    invalidSegs (by decide) (by decide) (by decide)

/-! ### C1: Sid assignment -/

theorem mapM_ok_map {α β ε γ} (f : α → Except ε β) (g : α → γ) (h : β → γ)
    (hfg : ∀ x y, f x = .ok y → g x = h y) :
    ∀ (l : List α) (ys : List β), l.mapM f = .ok ys → l.map g = ys.map h := by
  intro l
  induction l with
  | nil =>
    intro ys hys
    cases hys
    rfl
  | cons a t ih =>
    intro ys hys
    rw [List.mapM_cons] at hys
    cases hfa : f a with
    | error e =>
      rw [hfa] at hys
      cases hys
    | ok b =>
      rw [hfa] at hys
      cases hmt : t.mapM f with
      | error e =>
        rw [hmt] at hys
        cases hys
      | ok bs =>
        rw [hmt] at hys
        cases hys
        rw [List.map_cons, List.map_cons, hfg a b hfa, ih bs hmt]

theorem genStatement_sid (ctx : AwsContext)
    (lits ctxm : List Char → Option (List Char)) (idx : Nat) (a : Action)
    (s : PolicyStatement) (h : genStatement ctx lits ctxm idx a = .ok s) :
    s.sid = some (mkSid idx a.name) := by
  unfold genStatement at h
  cases hm : a.resources.mapM (expandResource ctx lits ctxm) with
  | error e =>
    rw [hm] at h
    cases h
  | ok rss =>
    rw [hm] at h
    cases h
    rfl

/-- C1 (amended): the Sid of the statement generated for the `i`-th action of
an enriched call (statements appear in action order) is
`Allow<PascalCaseActionName>` when `i = 0` and `Allow<PascalCaseActionName>`
followed by the decimal numeral `i` when `i ≥ 1`; the suffix depends only on
the position, not on a collision with a previously assigned Sid. -/
theorem c1_sid_assignment_amended (ctx : AwsContext)
    (lits ctxm : List Char → Option (List Char)) (call : EnrichedSdkMethodCall)
    (doc : PolicyDocument) (h : generateDocument ctx lits ctxm call = .ok doc) :
    doc.statements.map PolicyStatement.sid =
      (enumFrom 0 call.actions).map (fun p => some (mkSid p.1 p.2.name)) := by
  unfold generateDocument at h
  cases hm : (enumFrom 0 call.actions).mapM
      (fun p => genStatement ctx lits ctxm p.1 p.2) with
  | error e =>
    rw [hm] at h
    cases h
  | ok stmts =>
    rw [hm] at h
    cases h
    exact (mapM_ok_map _ (fun p => some (mkSid p.1 p.2.name)) PolicyStatement.sid
      (fun p s hs => (genStatement_sid ctx lits ctxm p.1 p.2 s hs).symm)
      _ stmts hm).symm

/-- C1 witness: the integration-test call, settled through the theorem — the
second statement's Sid carries the suffix `1`. -/
theorem c1_sid_assignment_amended_witness :
    ∃ doc, generateDocument testCtx noLookup noLookup testCall = .ok doc ∧
      doc.statements.map PolicyStatement.sid =
        [some "AllowS3GetObject".data, some "AllowS3GetObjectVersion1".data] := by
  refine ⟨⟨"2012-10-17".data,
    [⟨some "AllowS3GetObject".data, .Allow, ["s3:GetObject".data],
      ["arn:aws:s3:::*/*".data]⟩,
     ⟨some "AllowS3GetObjectVersion1".data, .Allow, ["s3:GetObjectVersion".data],
      ["arn:aws:s3:::*/*".data]⟩]⟩, rfl, ?_⟩
  have h := c1_sid_assignment_amended testCtx noLookup noLookup testCall
    ⟨"2012-10-17".data,
      [⟨some "AllowS3GetObject".data, .Allow, ["s3:GetObject".data],
        ["arn:aws:s3:::*/*".data]⟩,
       ⟨some "AllowS3GetObjectVersion1".data, .Allow, ["s3:GetObjectVersion".data],
        ["arn:aws:s3:::*/*".data]⟩]⟩ rfl
  exact h.trans (by decide)

/-- C1 counterexample: on the integration test's input the engine's second
statement carries Sid `AllowS3GetObjectVersion1` (the test asserts exactly
this), although its base Sid `AllowS3GetObjectVersion` collides with no
previously assigned Sid — collision-only assignment, as the claim states it,
would leave the base unsuffixed. -/
theorem c1_sid_collision_only_counterexample :
    ("Allow".data ++ pascalCaseAction "s3:GetObjectVersion".data =
      "AllowS3GetObjectVersion".data) ∧
    ((generateDocument testCtx noLookup noLookup testCall).map
      (fun d => d.statements.map PolicyStatement.sid) =
      .ok [some "AllowS3GetObject".data, some "AllowS3GetObjectVersion1".data]) ∧
    (assignSidsSpec ["AllowS3GetObject".data, "AllowS3GetObjectVersion".data] =
      ["AllowS3GetObject".data, "AllowS3GetObjectVersion".data]) ∧
    (some "AllowS3GetObjectVersion1".data ≠ some "AllowS3GetObjectVersion".data) := by
  exact ⟨rfl, rfl, by decide, by decide⟩

/-! ### C4: no cross-service merging unless enabled -/

/-- All actions of a statement belong to one service. -/
def ServiceHomog (s : PolicyStatement) : Prop :=
  ∀ a ∈ s.action, ∀ b ∈ s.action, serviceOfAction a = serviceOfAction b

instance serviceHomogDecidable (s : PolicyStatement) : Decidable (ServiceHomog s) :=
  inferInstanceAs
    (Decidable (∀ a ∈ s.action, ∀ b ∈ s.action, serviceOfAction a = serviceOfAction b))

theorem mem_of_mem_dedupFS {x : List Char} :
    ∀ (seen l : List (List Char)), x ∈ dedupFS seen l → x ∈ l := by
  intro seen l
  induction l generalizing seen with
  | nil => intro h; simp [dedupFS] at h
  | cons a t ih =>
    intro h
    rw [dedupFS] at h
    by_cases ha : a ∈ seen
    · rw [if_pos ha] at h
      exact List.mem_cons_of_mem _ (ih seen h)
    · rw [if_neg ha] at h
      rcases List.mem_cons.mp h with h | h
      · subst h
        exact List.mem_cons_self _ _
      · exact List.mem_cons_of_mem _ (ih _ h)

theorem mem_dedupFS_of_mem {x : List Char} :
    ∀ (seen l : List (List Char)), x ∈ l → x ∈ dedupFS seen l ∨ x ∈ seen := by
  intro seen l
  induction l generalizing seen with
  | nil => intro h; simp at h
  | cons a t ih =>
    intro h
    rw [dedupFS]
    by_cases ha : a ∈ seen
    · rw [if_pos ha]
      rcases List.mem_cons.mp h with h | h
      · subst h
        exact Or.inr ha
      · exact ih seen h
    · rw [if_neg ha]
      rcases List.mem_cons.mp h with h | h
      · subst h
        exact Or.inl (List.mem_cons_self _ _)
      · rcases ih (a :: seen) h with h' | h'
        · exact Or.inl (List.mem_cons_of_mem _ h')
        · rcases List.mem_cons.mp h' with h'' | h''
          · subst h''
            exact Or.inl (List.mem_cons_self _ _)
          · exact Or.inr h''

theorem stmtService_forces (s : PolicyStatement) (x : List Char)
    (h : stmtService s = some x) :
    ∀ a ∈ s.action, serviceOfAction a = x := by
  intro a ha
  unfold stmtService at h
  have hmem : serviceOfAction a ∈ s.action.map serviceOfAction :=
    List.mem_map_of_mem _ ha
  have hin : serviceOfAction a ∈ dedupFS [] (s.action.map serviceOfAction) := by
    rcases mem_dedupFS_of_mem [] _ hmem with h' | h'
    · exact h'
    · simp at h'
  cases hd : dedupFS [] (s.action.map serviceOfAction) with
  | nil =>
    rw [hd] at hin
    simp at hin
  | cons y ys =>
    rw [hd] at h hin
    cases ys with
    | nil =>
      have hxy : y = x := by
        have : (some y : Option (List Char)) = some x := h
        cases this
        rfl
      rcases List.mem_cons.mp hin with h' | h'
      · rw [h', hxy]
      · simp at h'
    | cons z zs => cases h

theorem canMerge_same_service (cfg : PolicyMergerConfig)
    (hcfg : cfg.allow_cross_service_merging = false)
    (t s : PolicyStatement) (h : canMerge cfg t s = true) :
    ∃ x, stmtService t = some x ∧ stmtService s = some x := by
  unfold canMerge at h
  rw [hcfg] at h
  simp only [Bool.false_eq_true, false_or, decide_eq_true_eq] at h
  obtain ⟨-, hsome, heq⟩ := h
  obtain ⟨x, hx⟩ := Option.isSome_iff_exists.mp hsome
  exact ⟨x, hx, heq ▸ hx⟩

theorem mergeInto_homog (cfg : PolicyMergerConfig)
    (hcfg : cfg.allow_cross_service_merging = false) (s : PolicyStatement)
    (hs : ServiceHomog s) :
    ∀ (acc : List PolicyStatement), (∀ m ∈ acc, ServiceHomog m) →
      ∀ m ∈ mergeInto cfg s acc, ServiceHomog m := by
  intro acc
  induction acc with
  | nil =>
    intro _ m hm
    rw [mergeInto] at hm
    rcases List.mem_cons.mp hm with h | h
    · subst h
      exact hs
    · simp at h
  | cons t rest ih =>
    intro hacc m hm
    rw [mergeInto] at hm
    by_cases hc : canMerge cfg t s = true
    · rw [if_pos hc] at hm
      rcases List.mem_cons.mp hm with h | h
      · subst h
        obtain ⟨x, hxt, hxs⟩ := canMerge_same_service cfg hcfg t s hc
        intro a ha b hb
        have haction : ∀ c ∈ dedupFS [] (t.action ++ s.action), serviceOfAction c = x := by
          intro c hcm
          rcases List.mem_append.mp (mem_of_mem_dedupFS _ _ hcm) with h' | h'
          · exact stmtService_forces t x hxt c h'
          · exact stmtService_forces s x hxs c h'
        rw [haction a ha, haction b hb]
      · exact hacc m (List.mem_cons_of_mem _ h)
    · rw [if_neg hc] at hm
      rcases List.mem_cons.mp hm with h | h
      · subst h
        exact hacc m (List.mem_cons_self _ _)
      · exact ih (fun m' hm' => hacc m' (List.mem_cons_of_mem _ hm')) m h

theorem foldl_mergeInto_homog (cfg : PolicyMergerConfig)
    (hcfg : cfg.allow_cross_service_merging = false) :
    ∀ (stmts acc : List PolicyStatement), (∀ s ∈ stmts, ServiceHomog s) →
      (∀ m ∈ acc, ServiceHomog m) →
      ∀ m ∈ stmts.foldl (fun acc s => mergeInto cfg s acc) acc, ServiceHomog m := by
  intro stmts
  induction stmts with
  | nil =>
    intro acc _ hacc m hm
    exact hacc m hm
  | cons s rest ih =>
    intro acc hstmts hacc m hm
    rw [List.foldl_cons] at hm
    exact ih (mergeInto cfg s acc)
      (fun x hx => hstmts x (List.mem_cons_of_mem _ hx))
      (mergeInto_homog cfg hcfg s (hstmts s (List.mem_cons_self _ _)) acc hacc)
      m hm

/-- C4: with cross-service merging unset, merging never combines statements of
different services — when every input statement's actions sit in one service,
so do every merged statement's. -/
theorem c4_no_cross_service_merge (cfg : PolicyMergerConfig)
    (hcfg : cfg.allow_cross_service_merging = false)
    (docs : List PolicyDocument)
    (hin : ∀ d ∈ docs, ∀ s ∈ d.statements, ServiceHomog s) :
    ∀ d ∈ merge_policies cfg docs, ∀ m ∈ d.statements, ServiceHomog m := by
  intro d hd m hm
  unfold merge_policies at hd
  rcases List.mem_cons.mp hd with h | h
  · subst h
    refine foldl_mergeInto_homog cfg hcfg _ [] ?_ (by simp) m hm
    intro s hs
    simp only [List.mem_flatten, List.mem_map] at hs
    obtain ⟨_, ⟨doc', hdoc', rfl⟩, hs⟩ := hs
    exact hin doc' hdoc' s hs
  · simp at h

/-- C4 witness: two single-service statements over the same resource in
different services stay service-homogeneous under the default (unset)
configuration; concretely they are not combined. -/
theorem c4_no_cross_service_merge_witness :
    PolicyMergerConfig.default.allow_cross_service_merging = false ∧
    (∀ d ∈ merge_policies .default
        [⟨"2012-10-17".data,
          [⟨none, .Allow, ["s3:GetObject".data], ["*".data]⟩,
           ⟨none, .Allow, ["dynamodb:GetItem".data], ["*".data]⟩]⟩],
      ∀ m ∈ d.statements, ServiceHomog m) ∧
    merge_policies .default
        [⟨"2012-10-17".data,
          [⟨none, .Allow, ["s3:GetObject".data], ["*".data]⟩,
           ⟨none, .Allow, ["dynamodb:GetItem".data], ["*".data]⟩]⟩] =
      [⟨"2012-10-17".data,
        [⟨none, .Allow, ["s3:GetObject".data], ["*".data]⟩,
         ⟨none, .Allow, ["dynamodb:GetItem".data], ["*".data]⟩]⟩] := by
  refine ⟨rfl, ?_, by decide⟩
  exact c4_no_cross_service_merge .default rfl _ (by decide)

/-! ### C6: determinism of generation -/

/-- C6: policy generation is a pure function of the enriched-call input — two
runs on equal inputs render byte-identical policy JSON, with identical
statement order, Sid assignment and set ordering.  (In this embedding the
engine holds no mutable state and no hash-ordered containers: deduplication
and Sid assignment use first-seen insertion order, so determinism holds by
construction.) -/
theorem c6_generation_deterministic (ctx : AwsContext)
    (lits ctxm : List Char → Option (List Char))
    (calls₁ calls₂ : List EnrichedSdkMethodCall) (h : calls₁ = calls₂) :
    policiesToJson (generate_policies_engine ctx lits ctxm calls₁) =
      policiesToJson (generate_policies_engine ctx lits ctxm calls₂) := by
  rw [h]

/-- C6 witness: two runs on the integration-test call render the same JSON. -/
theorem c6_generation_deterministic_witness :
    policiesToJson (generate_policies_engine testCtx noLookup noLookup [testCall]) =
      policiesToJson (generate_policies_engine testCtx noLookup noLookup [testCall]) :=
  c6_generation_deterministic testCtx noLookup noLookup [testCall] [testCall] rfl

end IPA
